import Mathlib

/-!
# Shallow embedding of the key-value store server (src/server.c)

This file embeds the hash-table store of `server.c` in Lean and proves the
specification claims about it.

Modelling conventions:
* `time_t` values (`time(NULL)`, `created_at`, `ttl` stored in a node) are
  modelled as `Int`; every call to `time(NULL)` becomes an explicit `now : Int`
  parameter, threaded in program order.
* `size_t` values (capacities, counts, the `ttl` parameter of `insert`) are
  modelled as `Nat`.  The C conversion `size_t → time_t` (assignment of the
  `ttl` parameter into the `time_t` node field) is `toTimeT`; the conversion
  `int → size_t` (`atoi` results used as sizes) is `intToSizeT`.
* `unsigned long` arithmetic in the hash function is taken modulo `2 ^ 64`.
* The bucket array is a `List (List Node)`; the `capacity` field is kept
  separately, exactly as in the C `HashTable` struct.
* The load-factor test `(double)count / capacity > 0.75` is modelled by the
  exact comparison `3 * capacity < 4 * count`, which agrees with the double
  computation for all magnitudes the program can reach.
* `malloc`/`calloc` failure paths (`exit(EXIT_FAILURE)`) are not modelled:
  allocation always succeeds in the embedding.  Likewise string formatting in
  `dump_store` is abstracted to the sequence of `(bucket index, node)` pairs
  that the C code prints, in print order.
-/

namespace KV

/-- One hash-table entry: C struct `Node` (minus the intrusive `next` pointer,
which is represented by the enclosing list). -/
structure Node where
  key : String
  value : String
  created_at : Int
  ttl : Int
  hash : Nat
deriving DecidableEq, Repr

/-- C struct `HashTable`. -/
structure HashTable where
  buckets : List (List Node)
  capacity : Nat
  count : Nat
deriving DecidableEq, Repr

def INITIAL_CAPACITY : Nat := 1023

def LOAD_FACTOR_NUM : Nat := 3  -- threshold 0.75 as the exact fraction 3/4

def MAX_TTL : Nat := 31536000

/-- C conversion `size_t → time_t` (wrap into the signed 64-bit range). -/
def toTimeT (n : Nat) : Int :=
  if n < 2 ^ 63 then (n : Int) else (n : Int) - 2 ^ 64

/-- C conversion `int → size_t` (reduce modulo `2 ^ 64`; negative values wrap). -/
def intToSizeT (i : Int) : Nat :=
  (i % (2 ^ 64 : Int)).toNat

/-- djb2 string hash of `server.c` (`hash` at src/server.c:51), with the
`unsigned long` overflow made explicit. -/
def hash (s : String) : Nat :=
  s.data.foldl (fun h c => ((h <<< 5) + h + c.toNat) % 2 ^ 64) 5381

/-- `create_table` (src/server.c:73): fresh table with `capacity` empty buckets
and count 0.  (The C code obtains the bucket array from `malloc` without
zeroing it; the intended — and in practice observed — initial contents are all
`NULL`, which is what we model.) -/
def create_table (capacity : Nat) : HashTable :=
  { buckets := List.replicate capacity [], capacity := capacity, count := 0 }

/-- All entries of the table, in bucket order (the flattening of the bucket
array). -/
def allNodes (t : HashTable) : List Node :=
  t.buckets.flatten

/-- One step of the rehash loop of `resize_table`: push node `n` onto the front
of its new bucket `n.hash % ncap`. -/
def rehashPush (ncap : Nat) (bs : List (List Node)) (n : Node) : List (List Node) :=
  bs.set (n.hash % ncap) (n :: bs.getD (n.hash % ncap) [])

/-- `resize_table` (src/server.c:245): grow the bucket array to
`capacity * 3` and rehash every node, walking the old buckets in order and each
chain head-to-tail, pushing each node onto the front of its new bucket.
`count` is unchanged. -/
def resize_table (t : HashTable) : HashTable :=
  let new_capacity := t.capacity * 3
  let new_buckets :=
    t.buckets.foldl (fun acc chain => chain.foldl (rehashPush new_capacity) acc)
      (List.replicate new_capacity [])
  { buckets := new_buckets, capacity := new_capacity, count := t.count }

/-- The chain scan of `insert` (the `for` loop at src/server.c:134): find the
first node with an equal key.  On a match: if `type ≠ 2` replace value, ttl and
`created_at` in place and report 1, otherwise (`add`) report -1 and leave the
chain unchanged.  `none` means the loop fell through (key not in the chain). -/
def insertLoop (key value : String) (ttl : Nat) (now : Int) (type : Int) :
    List Node → Option (Int × List Node)
  | [] => none
  | curr :: rest =>
    if curr.key = key then
      if type ≠ 2 then
        some (1, { curr with value := value, ttl := toTimeT ttl, created_at := now } :: rest)
      else
        some (-1, curr :: rest)
    else
      match insertLoop key value ttl now type rest with
      | some (r, rest') => some (r, curr :: rest')
      | none => none

/-- `insert` (src/server.c:122).  `type` 0 = write, 1 = update-only,
2 = add-only.  First the load-factor check (which can trigger a resize even
when the operation will turn out to be a replacement or a failure), then the
chain scan; if the key is absent and `type ≠ 1`, a new node is pushed onto the
front of the bucket and `count` is incremented.  Returns the C result code
(1 success, -1 failure) and the table afterwards. -/
def insert (key value : String) (ttl : Nat) (type : Int) (now : Int) (t : HashTable) :
    Int × HashTable :=
  let t₁ := if LOAD_FACTOR_NUM * t.capacity < 4 * t.count then resize_table t else t
  let h := hash key
  let index := h % t₁.capacity
  let chain := t₁.buckets.getD index []
  match insertLoop key value ttl now type chain with
  | some (r, chain') => (r, { t₁ with buckets := t₁.buckets.set index chain' })
  | none =>
    if type ≠ 1 then
      (1, { t₁ with
              buckets := t₁.buckets.set index
                ({ key := key, value := value, created_at := now,
                   ttl := toTimeT ttl, hash := h } :: chain),
              count := t₁.count + 1 })
    else
      (-1, t₁)

/-- The chain scan of `search` (the `while` loop at src/server.c:183):
returns (found node, resulting chain, whether an expired node was removed).
A key-matching live node is returned; a key-matching expired node is unlinked
and the scan reports nothing found (lazy deletion); other nodes are skipped. -/
def searchLoop (h : Nat) (key : String) (now : Int) :
    List Node → Option Node × List Node × Bool
  | [] => (none, [], false)
  | node :: rest =>
    if node.hash = h ∧ node.key = key ∧ now - node.created_at < node.ttl then
      (some node, node :: rest, false)
    else if node.hash = h ∧ node.key = key ∧ node.ttl ≤ now - node.created_at then
      (none, rest, true)
    else
      let out := searchLoop h key now rest
      (out.1, node :: out.2.1, out.2.2)

/-- `search` (src/server.c:177): scan the bucket of `key`; on lazy deletion of
an expired entry, `count` is decremented. -/
def search (key : String) (now : Int) (t : HashTable) : Option Node × HashTable :=
  let h := hash key
  let index := h % t.capacity
  let out := searchLoop h key now (t.buckets.getD index [])
  (out.1,
   { t with buckets := t.buckets.set index out.2.1,
            count := if out.2.2 then t.count - 1 else t.count })

/-- The removal scan of `delete` (the `while` loop at src/server.c:221):
unlink the first node whose stored hash and key both match; `none` if no node
matches. -/
def deleteLoop (h : Nat) (key : String) : List Node → Option (List Node)
  | [] => none
  | node :: rest =>
    if node.hash = h ∧ node.key = key then
      some rest
    else
      match deleteLoop h key rest with
      | some rest' => some (node :: rest')
      | none => none

/-- `delete` (src/server.c:210): first `search` (which may itself lazily drop
an expired entry); if it found a live node, rescan the bucket and unlink the
key, decrementing `count`. -/
def delete (key : String) (now : Int) (t : HashTable) : Int × HashTable :=
  let s := search key now t
  match s.1 with
  | none => (-1, s.2)
  | some _ =>
    let t₁ := s.2
    let h := hash key
    let index := h % t₁.capacity
    match deleteLoop h key (t₁.buckets.getD index []) with
    | some chain' =>
      (1, { t₁ with buckets := t₁.buckets.set index chain', count := t₁.count - 1 })
    | none => (-1, t₁)

/-- The per-bucket removal of `garbage_collect` (src/server.c:328): keep
exactly the nodes with `¬ (ttl < now - created_at)`. -/
def gcChain (now : Int) (chain : List Node) : List Node :=
  chain.filter (fun node => ¬ (node.ttl < now - node.created_at))

/-- `garbage_collect` (src/server.c:323): sweep every bucket; `count` is
decremented once per removed node, so it drops by the total number of removed
nodes. -/
def garbage_collect (now : Int) (t : HashTable) : HashTable :=
  let newBuckets := t.buckets.map (gcChain now)
  { buckets := newBuckets, capacity := t.capacity,
    count := t.count - (t.buckets.flatten.length - newBuckets.flatten.length) }

/-- `dump_store` (src/server.c:354), abstracted to the data it prints: `none`
(the C `NULL`) when `index ≥ capacity ∨ index + offset ≥ capacity`, otherwise
an implicit sweep followed by the `(bucket index, node)` pairs of buckets
`i = index` while `i < index + offset`, in print order.  Both the guard and
the loop bound compute `index + offset` in `size_t`, i.e. modulo `2 ^ 64` —
a huge `offset` (e.g. `atoi` of a negative argument converted to `size_t`)
wraps, so the sum can come out below `index` and the loop runs zero times.
The table after the call is returned as well (the sweep mutates it). -/
def dump_store (index offset : Nat) (now : Int) (t : HashTable) :
    Option (List (Nat × Node)) × HashTable :=
  if t.capacity ≤ index ∨ t.capacity ≤ (index + offset) % 2 ^ 64 then
    (none, t)
  else
    let t' := garbage_collect now t
    (some (((List.range' index ((index + offset) % 2 ^ 64 - index)).map
        (fun i => (t'.buckets.getD i []).map (fun n => (i, n)))).flatten),
     t')

/-! ## The command interpreter (`read_client_data`, src/server.c:400) -/

/-- C `isspace` on the default locale. -/
def isSpaceC (c : Char) : Bool :=
  c = ' ' || c = '\t' || c = '\n' || c = '\x0b' || c = '\x0c' || c = '\r'

/-- `trim_newline` (src/server.c:61): truncate at the first `'\n'` or `'\r'`. -/
def trim_newline (s : String) : String :=
  ⟨s.data.takeWhile (fun c => c ≠ '\n' ∧ c ≠ '\r')⟩

/-- One `%Ns` conversion of `sscanf`: skip whitespace, then read at most
`width` non-whitespace characters (the unread tail of an over-long word is left
for the next conversion, as in C). -/
def scanTok (width : Nat) (cs : List Char) : Option (String × List Char) :=
  let cs' := cs.dropWhile (fun c => isSpaceC c)
  match cs' with
  | [] => none
  | _ :: _ =>
    let tok := (cs'.takeWhile (fun c => ¬ isSpaceC c)).take width
    some (⟨tok⟩, cs'.drop tok.length)

/-- Result of `sscanf(buffer, "%15s %255s %767s %31s", …)`: the number of
converted tokens and the four buffers (unassigned buffers modelled as ""; the
C code never reads a buffer whose conversion did not happen). -/
structure ScanResult where
  n : Nat
  command : String
  key : String
  value : String
  ttlStr : String
deriving DecidableEq, Repr

def scanLine (buffer : String) : ScanResult :=
  match scanTok 15 buffer.data with
  | none => ⟨0, "", "", "", ""⟩
  | some (c1, r1) =>
    match scanTok 255 r1 with
    | none => ⟨1, c1, "", "", ""⟩
    | some (c2, r2) =>
      match scanTok 767 r2 with
      | none => ⟨2, c1, c2, "", ""⟩
      | some (c3, r3) =>
        match scanTok 31 r3 with
        | none => ⟨3, c1, c2, c3, ""⟩
        | some (c4, _) => ⟨4, c1, c2, c3, c4⟩

/-- C `atoi`: optional whitespace, optional sign, then a run of digits
(0 if there are none). -/
def atoi (s : String) : Int :=
  let cs := s.data.dropWhile (fun c => isSpaceC c)
  let digits (l : List Char) : Int :=
    (l.takeWhile (fun c => c.isDigit)).foldl (fun a c => a * 10 + ((c.toNat : Int) - 48)) 0
  match cs with
  | '-' :: rest => -(digits rest)
  | '+' :: rest => digits rest
  | _ => digits cs

/-- Lower-casing applied per character, as `strcasecmp` does (ASCII). -/
def lowerStr (s : String) : String :=
  ⟨s.data.map Char.toLower⟩

/-- `strcasecmp(a, b) == 0` for ASCII strings. -/
def ciEq (a b : String) : Prop :=
  lowerStr a = lowerStr b

instance (a b : String) : Decidable (ciEq a b) := by
  unfold ciEq; infer_instance

/-- The reply written back to the client, one constructor per distinct reply
shape of `read_client_data`. -/
inductive Reply where
  | ok
  | errWriteFailed
  | errUpdateNotFound
  | errAddExists
  | found (value : String) (created_at : Int)
  | notFoundR
  | goodbye
  | dumpR (rows : List (Nat × Node))
  | errDumpFailed
  | sizeR (count capacity : Nat)
  | allClean
  | errUnknown
  | errInvalid
deriving DecidableEq, Repr

/-- The command dispatch of `read_client_data` (src/server.c:433-505) on an
already-scanned line. -/
def dispatch (sr : ScanResult) (now : Int) (t : HashTable) : Reply × HashTable :=
  if 1 ≤ sr.n then
    let ttl_val : Nat := if sr.n = 4 then intToSizeT (atoi sr.ttlStr) else MAX_TTL
    if ciEq sr.command "write" ∧ 3 ≤ sr.n then
      let out := insert sr.key sr.value ttl_val 0 now t
      (if out.1 = 1 then .ok else .errWriteFailed, out.2)
    else if ciEq sr.command "update" ∧ 3 ≤ sr.n then
      let out := insert sr.key sr.value ttl_val 1 now t
      (if out.1 = 1 then .ok else .errUpdateNotFound, out.2)
    else if ciEq sr.command "add" ∧ 3 ≤ sr.n then
      let out := insert sr.key sr.value ttl_val 2 now t
      (if out.1 = 1 then .ok else .errAddExists, out.2)
    else if ciEq sr.command "search" ∧ sr.n = 2 then
      let out := search sr.key now t
      (match out.1 with
       | some nd => .found nd.value nd.created_at
       | none => .notFoundR, out.2)
    else if ciEq sr.command "quit" then
      (.goodbye, t)
    else if ciEq sr.command "dump" then
      let args : Nat × Nat :=
        if sr.n = 3 then (intToSizeT (atoi sr.key), intToSizeT (atoi sr.value))
        else (0, INITIAL_CAPACITY - 1)
      let out := dump_store args.1 args.2 now t
      (match out.1 with
       | some rows => .dumpR rows
       | none => .errDumpFailed, out.2)
    else if ciEq sr.command "size" then
      let t' := garbage_collect now t
      (.sizeR t'.count t'.capacity, t')
    else if ciEq sr.command "wipe" then
      (.allClean, create_table INITIAL_CAPACITY)
    else if ciEq sr.command "delete" ∧ sr.n = 2 then
      let out := delete sr.key now t
      (if out.1 = 1 then .ok else .notFoundR, out.2)
    else
      (.errUnknown, t)
  else
    (.errInvalid, t)

/-- Processing of one client line: trim, scan, dispatch. -/
def interp (buffer : String) (now : Int) (t : HashTable) : Reply × HashTable :=
  dispatch (scanLine (trim_newline buffer)) now t

/-! ## Store operations as an alphabet, for reachability statements -/

/-- The store operations a client can cause; `now` is the time at which the
operation runs. -/
inductive Op where
  | write (key value : String) (ttl : Nat) (now : Int)
  | update (key value : String) (ttl : Nat) (now : Int)
  | add (key value : String) (ttl : Nat) (now : Int)
  | searchOp (key : String) (now : Int)
  | deleteOp (key : String) (now : Int)
  | gc (now : Int)
  | wipe
deriving DecidableEq, Repr

def applyOp (t : HashTable) : Op → HashTable
  | .write k v ttl now => (insert k v ttl 0 now t).2
  | .update k v ttl now => (insert k v ttl 1 now t).2
  | .add k v ttl now => (insert k v ttl 2 now t).2
  | .searchOp k now => (search k now t).2
  | .deleteOp k now => (delete k now t).2
  | .gc now => garbage_collect now t
  | .wipe => create_table INITIAL_CAPACITY

/-- The state after a sequence of operations, starting from the table the
server creates at startup. -/
def runOps (ops : List Op) : HashTable :=
  ops.foldl applyOp (create_table INITIAL_CAPACITY)

/-- `Op.write`/`Op.add`/`Op.update` — the operations named by the uniqueness
claim. -/
def isWAU : Op → Prop
  | .write _ _ _ _ => True
  | .update _ _ _ _ => True
  | .add _ _ _ _ => True
  | _ => False

instance (op : Op) : Decidable (isWAU op) := by
  cases op <;> (unfold isWAU; infer_instance)

/-! ## Well-formedness -/

/-- No two entries share a key. -/
def keyNodup (l : List Node) : Prop :=
  l.Pairwise (fun a b => a.key ≠ b.key)

/-- `key` has no entry anywhere in the table. -/
def keyAbsent (key : String) (t : HashTable) : Prop :=
  ∀ n ∈ allNodes t, n.key ≠ key

/-- The structural invariant of a table: positive capacity, bucket array of
the advertised size, every node caching its true hash and sitting in the
bucket selected by it, globally unique keys, and an accurate count. -/
def WF (t : HashTable) : Prop :=
  0 < t.capacity ∧
  t.buckets.length = t.capacity ∧
  (∀ n ∈ allNodes t, n.hash = hash n.key) ∧
  (∀ i, i < t.buckets.length → ∀ n ∈ t.buckets.getD i [], n.hash % t.capacity = i) ∧
  keyNodup (allNodes t) ∧
  t.count = (allNodes t).length

instance (t : HashTable) : Decidable (WF t) := by
  unfold WF keyNodup allNodes; infer_instance

instance (key : String) (t : HashTable) : Decidable (keyAbsent key t) := by
  unfold keyAbsent allNodes; infer_instance

/-- Key family used for concrete reachability counterexamples:
`repKey n` is the string of `n + 1` letters `a`. -/
def repKey (n : Nat) : String :=
  ⟨List.replicate (n + 1) 'a'⟩

/-- 768 `write` operations with pairwise-distinct keys: enough to push the
load factor of the initial 1023-bucket table strictly above 3/4 without ever
tripping the (strict) pre-insert resize check. -/
def cexOps : List Op :=
  (List.range 768).map (fun i => Op.write (repKey i) "v" 100 0)

/-! ## List helper lemmas -/

theorem getD_set_self {α : Type} :
    ∀ (l : List α) (i : Nat) (c d : α), i < l.length → (l.set i c).getD i d = c := by
  intro l
  induction l with
  | nil => intro i c d h; simp at h
  | cons a tl ih =>
    intro i c d h
    cases i with
    | zero => rfl
    | succ j =>
      simp only [List.set, List.getD, List.get?]
      exact ih j c d (by simpa using h)

theorem getD_set_ne {α : Type} :
    ∀ (l : List α) (i j : Nat) (c d : α), i ≠ j → (l.set i c).getD j d = l.getD j d := by
  intro l
  induction l with
  | nil => intro i j c d _; simp [List.set]
  | cons a tl ih =>
    intro i j c d hij
    cases i with
    | zero =>
      cases j with
      | zero => exact absurd rfl hij
      | succ j' => rfl
    | succ i' =>
      cases j with
      | zero => rfl
      | succ j' =>
        simp only [List.set, List.getD, List.get?]
        exact ih i' j' c d (fun h => hij (by omega))

theorem set_getD_self {α : Type} :
    ∀ (l : List α) (i : Nat) (d : α), l.set i (l.getD i d) = l := by
  intro l
  induction l with
  | nil => intro i d; rfl
  | cons a tl ih =>
    intro i d
    cases i with
    | zero => rfl
    | succ j => simpa [List.set] using ih j d

theorem flatten_set {α : Type} :
    ∀ (l : List (List α)) (i : Nat) (c : List α), i < l.length →
      (l.set i c).flatten = (l.take i).flatten ++ c ++ (l.drop (i + 1)).flatten := by
  intro l
  induction l with
  | nil => intro i c h; simp at h
  | cons a tl ih =>
    intro i c h
    cases i with
    | zero => simp
    | succ j =>
      simp only [List.set, List.flatten_cons, List.take, List.drop]
      rw [ih j c (by simpa using h)]
      simp [List.append_assoc]

theorem flatten_decomp {α : Type} :
    ∀ (l : List (List α)) (i : Nat) (d : List α), i < l.length →
      l.flatten = (l.take i).flatten ++ l.getD i d ++ (l.drop (i + 1)).flatten := by
  intro l i d h
  conv_lhs => rw [← set_getD_self l i d]
  exact flatten_set l i (l.getD i d) h

theorem getD_subset_flatten {α : Type} (l : List (List α)) (i : Nat) (h : i < l.length) :
    ∀ x ∈ l.getD i [], x ∈ l.flatten := by
  intro x hx
  rw [flatten_decomp l i [] h]
  simp only [List.mem_append]
  exact Or.inl (Or.inr hx)

theorem getD_replicate {α : Type} :
    ∀ (n i : Nat) (a d : α), i < n → (List.replicate n a).getD i d = a := by
  intro n
  induction n with
  | zero => intro i a d h; omega
  | succ m ih =>
    intro i a d h
    cases i with
    | zero => rfl
    | succ j => simpa [List.replicate] using ih j a d (by omega)

theorem getD_eq_get {α : Type} :
    ∀ (l : List α) (i : Nat) (d : α) (h : i < l.length), l.getD i d = l.get ⟨i, h⟩ := by
  intro l
  induction l with
  | nil => intro i d h; simp at h
  | cons a tl ih =>
    intro i d h
    cases i with
    | zero => rfl
    | succ j => simpa [List.getD] using ih j d (by simpa using h)

/-! ## Basic table facts -/

theorem flatten_replicate_nil {α : Type} :
    ∀ n : Nat, (List.replicate n ([] : List α)).flatten = [] := by
  intro n
  induction n with
  | zero => rfl
  | succ m ih => simp [List.replicate, ih]

theorem allNodes_create (c : Nat) : allNodes (create_table c) = [] := by
  simp [allNodes, create_table, flatten_replicate_nil]

theorem WF_create (c : Nat) (hc : 0 < c) : WF (create_table c) := by
  refine ⟨hc, by simp [create_table], ?_, ?_, ?_, ?_⟩
  · intro n hn; rw [allNodes_create] at hn; cases hn
  · intro i hi n hn
    rw [create_table] at hn
    simp only at hn
    rw [getD_replicate c i [] [] (by simpa [create_table] using hi)] at hn
    cases hn
  · rw [allNodes_create]; exact List.Pairwise.nil
  · simp [create_table, allNodes, flatten_replicate_nil]

theorem mem_allNodes {t : HashTable} {n : Node} :
    n ∈ allNodes t ↔ ∃ i, i < t.buckets.length ∧ n ∈ t.buckets.getD i [] := by
  constructor
  · intro hn
    rw [allNodes, List.mem_flatten] at hn
    obtain ⟨c, hc, hnc⟩ := hn
    obtain ⟨⟨iv, hlt⟩, hget⟩ := List.mem_iff_get.mp hc
    refine ⟨iv, hlt, ?_⟩
    rw [getD_eq_get _ _ _ hlt, hget]
    exact hnc
  · rintro ⟨i, hi, hn⟩
    exact getD_subset_flatten t.buckets i hi n hn

/-- Every node of a well-formed table lies in the bucket selected by the hash
of its own key. -/
theorem node_in_own_bucket {t : HashTable} {n : Node} (hWF : WF t)
    (hn : n ∈ allNodes t) : n ∈ t.buckets.getD (hash n.key % t.capacity) [] := by
  obtain ⟨-, -, hhash, hbucket, -, -⟩ := hWF
  obtain ⟨i, hi, hmem⟩ := mem_allNodes.mp hn
  have h1 : n.hash % t.capacity = i := hbucket i hi n hmem
  have h2 : n.hash = hash n.key := hhash n hn
  rw [← h2, h1]
  exact hmem

/-- In a well-formed table, a node with key `k` can only live in the bucket
`hash k % capacity`; any bucket with another index is `k`-free. -/
theorem other_bucket_key_free {t : HashTable} (hWF : WF t) {i : Nat}
    (hi : i < t.buckets.length) {k : String} (hne : i ≠ hash k % t.capacity) :
    ∀ m ∈ t.buckets.getD i [], m.key ≠ k := by
  obtain ⟨-, -, hhash, hbucket, -, -⟩ := hWF
  intro m hm hk
  have h1 : m.hash % t.capacity = i := hbucket i hi m hm
  have h2 : m.hash = hash m.key := hhash m (getD_subset_flatten t.buckets i hi m hm)
  rw [h2, hk] at h1
  exact hne h1.symm

/-- Each bucket chain of a well-formed table is itself key-nodup. -/
theorem chain_keyNodup {t : HashTable} (hWF : WF t) {i : Nat}
    (hi : i < t.buckets.length) : keyNodup (t.buckets.getD i []) := by
  obtain ⟨-, -, -, -, hnd, -⟩ := hWF
  have hdec := flatten_decomp t.buckets i [] hi
  rw [allNodes] at hnd
  rw [hdec] at hnd
  have hsub : (t.buckets.getD i []).Sublist
      ((t.buckets.take i).flatten ++ t.buckets.getD i [] ++ (t.buckets.drop (i + 1)).flatten) := by
    rw [List.append_assoc]
    exact (List.sublist_append_left _ _).trans (List.sublist_append_right _ _)
  exact hnd.sublist hsub

/-- Split a key-nodup chain at its unique node with key `k`: everything before
and after has a different key. -/
theorem chain_split_of_mem {chain : List Node} (hnd : keyNodup chain) {n : Node}
    (hn : n ∈ chain) :
    ∃ pre post, chain = pre ++ n :: post ∧
      (∀ m ∈ pre, m.key ≠ n.key) ∧ (∀ m ∈ post, m.key ≠ n.key) := by
  obtain ⟨pre, post, rfl⟩ := List.append_of_mem hn
  refine ⟨pre, post, rfl, ?_, ?_⟩
  · intro m hm hk
    rw [keyNodup, List.pairwise_append] at hnd
    exact hnd.2.2 m hm n (List.mem_cons_self _ _) hk
  · intro m hm hk
    rw [keyNodup, List.pairwise_append] at hnd
    exact (List.pairwise_cons.mp hnd.2.1).1 m hm hk.symm

/-- Two entries of a key-nodup list with the same key are the same entry. -/
theorem keyNodup_eq_of_key_eq {l : List Node} (hnd : keyNodup l) {m n : Node}
    (hm : m ∈ l) (hn : n ∈ l) (hk : m.key = n.key) : m = n := by
  by_contra hne
  exact hnd.forall (fun a b hab => (hab ∘ Eq.symm : b.key ≠ a.key)) hm hn hne hk

/-! ## The `search` chain scan -/

theorem searchLoop_not_found {h : Nat} {key : String} {now : Int} :
    ∀ {chain : List Node}, (∀ m ∈ chain, ¬(m.hash = h ∧ m.key = key)) →
      searchLoop h key now chain = (none, chain, false) := by
  intro chain
  induction chain with
  | nil => intro _; rfl
  | cons node rest ih =>
    intro hno
    have h1 : ¬(node.hash = h ∧ node.key = key ∧ now - node.created_at < node.ttl) :=
      fun ⟨a, b, _⟩ => hno node (List.mem_cons_self _ _) ⟨a, b⟩
    have h2 : ¬(node.hash = h ∧ node.key = key ∧ node.ttl ≤ now - node.created_at) :=
      fun ⟨a, b, _⟩ => hno node (List.mem_cons_self _ _) ⟨a, b⟩
    rw [searchLoop, if_neg h1, if_neg h2, ih (fun m hm => hno m (List.mem_cons_of_mem _ hm))]

theorem searchLoop_found {h : Nat} {key : String} {now : Int} {n : Node}
    (pre post : List Node) (hpre : ∀ m ∈ pre, ¬(m.hash = h ∧ m.key = key))
    (hh : n.hash = h) (hk : n.key = key) (hlive : now - n.created_at < n.ttl) :
    searchLoop h key now (pre ++ n :: post) = (some n, pre ++ n :: post, false) := by
  induction pre with
  | nil => simp only [List.nil_append]; rw [searchLoop, if_pos ⟨hh, hk, hlive⟩]
  | cons m pre' ih =>
    have h1 : ¬(m.hash = h ∧ m.key = key ∧ now - m.created_at < m.ttl) :=
      fun ⟨a, b, _⟩ => hpre m (List.mem_cons_self _ _) ⟨a, b⟩
    have h2 : ¬(m.hash = h ∧ m.key = key ∧ m.ttl ≤ now - m.created_at) :=
      fun ⟨a, b, _⟩ => hpre m (List.mem_cons_self _ _) ⟨a, b⟩
    simp only [List.cons_append]
    rw [searchLoop, if_neg h1, if_neg h2, ih (fun x hx => hpre x (List.mem_cons_of_mem _ hx))]

theorem searchLoop_expired {h : Nat} {key : String} {now : Int} {n : Node}
    (pre post : List Node) (hpre : ∀ m ∈ pre, ¬(m.hash = h ∧ m.key = key))
    (hh : n.hash = h) (hk : n.key = key) (hexp : n.ttl ≤ now - n.created_at) :
    searchLoop h key now (pre ++ n :: post) = (none, pre ++ post, true) := by
  induction pre with
  | nil =>
    simp only [List.nil_append]
    rw [searchLoop, if_neg (fun ⟨_, _, hlive⟩ => absurd hexp (by omega)),
      if_pos ⟨hh, hk, hexp⟩]
  | cons m pre' ih =>
    have h1 : ¬(m.hash = h ∧ m.key = key ∧ now - m.created_at < m.ttl) :=
      fun ⟨a, b, _⟩ => hpre m (List.mem_cons_self _ _) ⟨a, b⟩
    have h2 : ¬(m.hash = h ∧ m.key = key ∧ m.ttl ≤ now - m.created_at) :=
      fun ⟨a, b, _⟩ => hpre m (List.mem_cons_self _ _) ⟨a, b⟩
    simp only [List.cons_append]
    rw [searchLoop, if_neg h1, if_neg h2, ih (fun x hx => hpre x (List.mem_cons_of_mem _ hx))]

/-- Whatever the scan does, the resulting chain is the old one (no removal) or
the old one minus exactly one node (removal). -/
theorem searchLoop_cases {h : Nat} {key : String} {now : Int} :
    ∀ (chain : List Node),
      ((searchLoop h key now chain).2.2 = false →
        (searchLoop h key now chain).2.1 = chain) ∧
      ((searchLoop h key now chain).2.2 = true →
        (searchLoop h key now chain).2.1.Sublist chain ∧
        (searchLoop h key now chain).2.1.length + 1 = chain.length) := by
  intro chain
  induction chain with
  | nil => exact ⟨fun _ => rfl, fun hb => by simp [searchLoop] at hb⟩
  | cons node rest ih =>
    rw [searchLoop]
    split
    · exact ⟨fun _ => rfl, fun hb => by simp at hb⟩
    · split
      · refine ⟨fun hb => by simp at hb, fun _ => ⟨List.sublist_cons_self _ _, rfl⟩⟩
      · refine ⟨fun hb => ?_, fun hb => ?_⟩
        · simp only at hb ⊢
          rw [ih.1 hb]
        · simp only at hb ⊢
          exact ⟨(ih.2 hb).1.cons₂ node, by have := (ih.2 hb).2; simp [this]⟩

/-! ## `search` on well-formed tables -/

/-- `search` unfolded. -/
theorem search_eq (k : String) (now : Int) (t : HashTable) :
    search k now t =
      ((searchLoop (hash k) k now (t.buckets.getD (hash k % t.capacity) [])).1,
       { t with
         buckets := t.buckets.set (hash k % t.capacity)
           (searchLoop (hash k) k now (t.buckets.getD (hash k % t.capacity) [])).2.1,
         count := if (searchLoop (hash k) k now (t.buckets.getD (hash k % t.capacity) [])).2.2
           then t.count - 1 else t.count }) := rfl

/-- A live entry is found by `search` and nothing is modified. -/
theorem search_found {t : HashTable} {k : String} {n : Node} {now : Int}
    (hWF : WF t) (hn : n ∈ allNodes t) (hk : n.key = k)
    (hlive : now - n.created_at < n.ttl) :
    search k now t = (some n, t) := by
  have hidx : hash k % t.capacity < t.buckets.length := by
    rw [hWF.2.1]; exact Nat.mod_lt _ hWF.1
  have hchain : n ∈ t.buckets.getD (hash k % t.capacity) [] := by
    have := node_in_own_bucket hWF hn
    rwa [hk] at this
  obtain ⟨pre, post, hsplit, hpre, -⟩ :=
    chain_split_of_mem (chain_keyNodup hWF hidx) hchain
  have hnh : n.hash = hash k := by rw [hWF.2.2.1 n hn, hk]
  have hloop : searchLoop (hash k) k now (t.buckets.getD (hash k % t.capacity) [])
      = (some n, t.buckets.getD (hash k % t.capacity) [], false) := by
    rw [hsplit]
    exact searchLoop_found pre post
      (fun m hm hand => hpre m hm (hand.2.trans hk.symm)) hnh hk hlive
  rw [search_eq, hloop]
  rw [set_getD_self]
  simp

/-- Searching for a key with no entry at all finds nothing and modifies
nothing. -/
theorem search_absent {t : HashTable} {k : String} {now : Int}
    (hWF : WF t) (habs : keyAbsent k t) :
    search k now t = (none, t) := by
  have hidx : hash k % t.capacity < t.buckets.length := by
    rw [hWF.2.1]; exact Nat.mod_lt _ hWF.1
  have hloop : searchLoop (hash k) k now (t.buckets.getD (hash k % t.capacity) [])
      = (none, t.buckets.getD (hash k % t.capacity) [], false) :=
    searchLoop_not_found
      (fun m hm hand => habs m (getD_subset_flatten _ _ hidx m hm) hand.2)
  rw [search_eq, hloop]
  rw [set_getD_self]
  simp

/-- Unlinking the (unique) `k`-node from its bucket and decrementing the
count: the table stays well formed, loses exactly one entry, and becomes
`k`-free. -/
theorem remove_node_facts {t : HashTable} {k : String} {n : Node}
    (hWF : WF t) (hn : n ∈ allNodes t) (hk : n.key = k)
    {pre post : List Node}
    (hsplit : t.buckets.getD (hash k % t.capacity) [] = pre ++ n :: post)
    (t₂ : HashTable)
    (ht₂ : t₂ = { t with buckets := t.buckets.set (hash k % t.capacity) (pre ++ post),
                         count := t.count - 1 }) :
    WF t₂ ∧ keyAbsent k t₂ ∧ 1 ≤ t.count ∧
      (allNodes t₂).length + 1 = (allNodes t).length := by
  obtain ⟨hcap, hlen, hhash, hbucket, hnd, hcount⟩ := hWF
  have hidx : hash k % t.capacity < t.buckets.length := by
    rw [hlen]; exact Nat.mod_lt _ hcap
  have hA : allNodes t = (t.buckets.take (hash k % t.capacity)).flatten ++
      (pre ++ n :: post) ++ (t.buckets.drop (hash k % t.capacity + 1)).flatten := by
    rw [allNodes, flatten_decomp t.buckets _ [] hidx, hsplit]
  have hA₂ : allNodes t₂ = (t.buckets.take (hash k % t.capacity)).flatten ++
      (pre ++ post) ++ (t.buckets.drop (hash k % t.capacity + 1)).flatten := by
    rw [ht₂, allNodes]
    exact flatten_set t.buckets _ (pre ++ post) hidx
  have hsub : (allNodes t₂).Sublist (allNodes t) := by
    rw [hA, hA₂]
    exact ((List.Sublist.refl _).append
      ((List.sublist_cons_self n post).append_left pre)).append (List.Sublist.refl _)
  have hlength : (allNodes t₂).length + 1 = (allNodes t).length := by
    rw [hA, hA₂]
    simp only [List.length_append, List.length_cons]
    omega
  have hone : 1 ≤ t.count := by rw [hcount]; omega
  -- `n` does not survive in `t₂`
  have hnotmem : n ∉ allNodes t₂ := by
    rw [hA] at hnd
    intro hmem
    rw [hA₂] at hmem
    rw [keyNodup, List.append_assoc, List.pairwise_append] at hnd
    obtain ⟨hndA, hndR, hAR⟩ := hnd
    rw [List.pairwise_append] at hndR
    obtain ⟨hndC, hndB, hCB⟩ := hndR
    rw [List.pairwise_append] at hndC
    obtain ⟨hndpre, hndnpost, hpreN⟩ := hndC
    have hninC : n ∈ pre ++ n :: post := by simp
    rcases List.mem_append.mp hmem with hmem' | hinB
    · rcases List.mem_append.mp hmem' with hinA | hinC
      · exact hAR n hinA n (List.mem_append.mpr (Or.inl hninC)) rfl
      · rcases List.mem_append.mp hinC with hinpre | hinpost
        · exact hpreN n hinpre n (List.mem_cons_self _ _) rfl
        · exact (List.pairwise_cons.mp hndnpost).1 n hinpost rfl
    · exact hCB n hninC n hinB rfl
  have habs₂ : keyAbsent k t₂ := by
    intro m hm hkm
    have hmt : m ∈ allNodes t := hsub.mem hm
    have : m = n := keyNodup_eq_of_key_eq hnd hmt hn (hkm.trans hk.symm)
    rw [this] at hm
    exact hnotmem hm
  refine ⟨⟨?_, ?_, ?_, ?_, ?_, ?_⟩, habs₂, hone, hlength⟩
  · rw [ht₂]; exact hcap
  · rw [ht₂]; simpa using hlen
  · intro m hm; exact hhash m (hsub.mem hm)
  · intro i hi m hm
    rw [ht₂] at hi hm
    simp only [List.length_set] at hi
    by_cases hieq : i = hash k % t.capacity
    · subst hieq
      simp only at hm
      rw [getD_set_self _ _ _ _ hidx] at hm
      have hmold : m ∈ t.buckets.getD (hash k % t.capacity) [] := by
        rw [hsplit]
        rcases List.mem_append.mp hm with h1 | h2
        · exact List.mem_append.mpr (Or.inl h1)
        · exact List.mem_append.mpr (Or.inr (List.mem_cons_of_mem _ h2))
      have := hbucket _ hidx m hmold
      rw [ht₂]; simpa using this
    · simp only at hm
      rw [getD_set_ne _ _ _ _ _ (fun h => hieq h.symm)] at hm
      have := hbucket i hi m hm
      rw [ht₂]; simpa using this
  · exact hnd.sublist hsub
  · have hc2 : t₂.count = t.count - 1 := by rw [ht₂]
    rw [hc2]
    omega

/-- A key-matching expired entry: `search` reports nothing, removes the entry,
and decrements the count; the table stays well formed and `k`-free. -/
theorem search_expired {t : HashTable} {k : String} {n : Node} (now : Int)
    (hWF : WF t) (hn : n ∈ allNodes t) (hk : n.key = k)
    (hexp : n.ttl ≤ now - n.created_at) :
    (search k now t).1 = none ∧
    (search k now t).2 = { t with
        buckets := t.buckets.set (hash k % t.capacity)
          ((search k now t).2.buckets.getD (hash k % t.capacity) []),
        count := t.count - 1 } ∧
    (search k now t).2.count = t.count - 1 ∧ 1 ≤ t.count ∧
    (search k now t).2.capacity = t.capacity ∧
    WF (search k now t).2 ∧ keyAbsent k (search k now t).2 ∧
    (allNodes (search k now t).2).length + 1 = (allNodes t).length := by
  have hidx : hash k % t.capacity < t.buckets.length := by
    rw [hWF.2.1]; exact Nat.mod_lt _ hWF.1
  have hchain : n ∈ t.buckets.getD (hash k % t.capacity) [] := by
    have := node_in_own_bucket hWF hn
    rwa [hk] at this
  obtain ⟨pre, post, hsplit, hpre, -⟩ :=
    chain_split_of_mem (chain_keyNodup hWF hidx) hchain
  have hnh : n.hash = hash k := by rw [hWF.2.2.1 n hn, hk]
  have hloop : searchLoop (hash k) k now (t.buckets.getD (hash k % t.capacity) [])
      = (none, pre ++ post, true) := by
    rw [hsplit]
    exact searchLoop_expired pre post
      (fun m hm hand => hpre m hm (hand.2.trans hk.symm)) hnh hk hexp
  have hres : search k now t =
      (none, { t with buckets := t.buckets.set (hash k % t.capacity) (pre ++ post),
                      count := t.count - 1 }) := by
    rw [search_eq, hloop]
    rfl
  obtain ⟨hWF₂, habs₂, hone, hlength⟩ :=
    remove_node_facts ⟨hWF.1, hWF.2.1, hWF.2.2.1, hWF.2.2.2.1, hWF.2.2.2.2.1,
      hWF.2.2.2.2.2⟩ hn hk hsplit { t with
        buckets := t.buckets.set (hash k % t.capacity) (pre ++ post),
        count := t.count - 1 } rfl
  refine ⟨by rw [hres], ?_, by rw [hres], hone, by rw [hres], by rw [hres]; exact hWF₂,
    by rw [hres]; exact habs₂, by rw [hres]; exact hlength⟩
  rw [hres]
  simp only
  rw [getD_set_self _ _ _ _ hidx]

/-! ## `resize_table` -/

/-- The double fold of `resize_table` is the fold of `rehashPush` over the
flattened table. -/
theorem resize_eq (t : HashTable) :
    resize_table t =
      { buckets := (allNodes t).foldl (rehashPush (t.capacity * 3))
          (List.replicate (t.capacity * 3) []),
        capacity := t.capacity * 3, count := t.count } := by
  rw [resize_table, allNodes, List.foldl_flatten]

/-- Invariant of the rehash fold: bucket count stays `ncap`, every node sits
in the bucket selected by its hash, and the contents are the pushed nodes plus
the previous contents (as a multiset). -/
theorem rehash_fold_facts (ncap : Nat) (hncap : 0 < ncap) :
    ∀ (ns : List Node) (bs : List (List Node)),
      bs.length = ncap →
      (∀ i, i < ncap → ∀ m ∈ bs.getD i [], m.hash % ncap = i) →
      (ns.foldl (rehashPush ncap) bs).length = ncap ∧
      (∀ i, i < ncap → ∀ m ∈ (ns.foldl (rehashPush ncap) bs).getD i [],
        m.hash % ncap = i) ∧
      ((ns.foldl (rehashPush ncap) bs).flatten).Perm (ns ++ bs.flatten) := by
  intro ns
  induction ns with
  | nil =>
    intro bs hlen hbok
    exact ⟨hlen, hbok, by simp⟩
  | cons n rest ih =>
    intro bs hlen hbok
    have hj : n.hash % ncap < bs.length := by rw [hlen]; exact Nat.mod_lt _ hncap
    have hlen' : (rehashPush ncap bs n).length = ncap := by
      rw [rehashPush, List.length_set]; exact hlen
    have hbok' : ∀ i, i < ncap → ∀ m ∈ (rehashPush ncap bs n).getD i [],
        m.hash % ncap = i := by
      intro i hi m hm
      by_cases hieq : i = n.hash % ncap
      · subst hieq
        rw [rehashPush, getD_set_self _ _ _ _ hj] at hm
        rcases List.mem_cons.mp hm with rfl | hm'
        · rfl
        · exact hbok _ hi m hm'
      · rw [rehashPush, getD_set_ne _ _ _ _ _ (fun h => hieq h.symm)] at hm
        exact hbok i hi m hm
    have hperm' : (rehashPush ncap bs n).flatten.Perm (n :: bs.flatten) := by
      rw [rehashPush, flatten_set _ _ _ hj,
        flatten_decomp bs (n.hash % ncap) [] hj]
      simp only [List.append_assoc, List.cons_append]
      exact List.perm_middle
    obtain ⟨l1, l2, l3⟩ := ih (rehashPush ncap bs n) hlen' hbok'
    refine ⟨by simpa using l1, by simpa using l2, ?_⟩
    simp only [List.foldl_cons]
    refine l3.trans ?_
    exact (hperm'.append_left rest).trans List.perm_middle

/-- `resize_table` on a well-formed table: capacity is tripled, count is kept,
the entries are preserved up to permutation, and the table stays well
formed. -/
theorem resize_facts {t : HashTable} (hWF : WF t) :
    WF (resize_table t) ∧
    (resize_table t).capacity = t.capacity * 3 ∧
    (resize_table t).count = t.count ∧
    (allNodes (resize_table t)).Perm (allNodes t) := by
  obtain ⟨hcap, hlen, hhash, hbucket, hnd, hcount⟩ := hWF
  have hncap : 0 < t.capacity * 3 := by omega
  have hinit : ∀ i, i < t.capacity * 3 →
      ∀ m ∈ (List.replicate (t.capacity * 3) ([] : List Node)).getD i [],
        m.hash % (t.capacity * 3) = i := by
    intro i hi m hm
    rw [getD_replicate _ _ _ _ hi] at hm
    cases hm
  obtain ⟨f1, f2, f3⟩ := rehash_fold_facts (t.capacity * 3) hncap (allNodes t)
    (List.replicate (t.capacity * 3) []) (by simp) hinit
  have hperm : (allNodes (resize_table t)).Perm (allNodes t) := by
    rw [resize_eq, allNodes]
    simp only
    refine f3.trans ?_
    rw [flatten_replicate_nil, List.append_nil]
  refine ⟨⟨hncap, ?_, ?_, ?_, ?_, ?_⟩, by rw [resize_eq], by rw [resize_eq], hperm⟩
  · rw [resize_eq]; simpa using f1
  · intro m hm
    exact hhash m (hperm.mem_iff.mp hm)
  · intro i hi m hm
    rw [resize_eq] at hi hm ⊢
    simp only at hi hm ⊢
    rw [f1] at hi
    exact f2 i hi m hm
  · exact ((List.Perm.pairwise_iff (fun h => (h ∘ Eq.symm))) hperm).mpr hnd
  · have hcnt : (resize_table t).count = t.count := by rw [resize_eq]
    rw [hcnt, hcount]
    exact (hperm.length_eq).symm

/-! ## The `insert` chain scan -/

theorem insertLoop_not_found {key value : String} {ttl : Nat} {now : Int} {ty : Int} :
    ∀ {chain : List Node}, (∀ m ∈ chain, m.key ≠ key) →
      insertLoop key value ttl now ty chain = none := by
  intro chain
  induction chain with
  | nil => intro _; rfl
  | cons m rest ih =>
    intro hno
    rw [insertLoop, if_neg (hno m (List.mem_cons_self _ _)),
      ih (fun x hx => hno x (List.mem_cons_of_mem _ hx))]

theorem insertLoop_found_replace {key value : String} {ttl : Nat} {now : Int}
    {ty : Int} (hty : ty ≠ 2) {n : Node} (pre post : List Node)
    (hpre : ∀ m ∈ pre, m.key ≠ key) (hk : n.key = key) :
    insertLoop key value ttl now ty (pre ++ n :: post) =
      some (1, pre ++ { n with value := value, ttl := toTimeT ttl,
                               created_at := now } :: post) := by
  induction pre with
  | nil => simp only [List.nil_append]; rw [insertLoop, if_pos hk, if_pos hty]
  | cons m pre' ih =>
    simp only [List.cons_append]
    rw [insertLoop, if_neg (hpre m (List.mem_cons_self _ _)),
      ih (fun x hx => hpre x (List.mem_cons_of_mem _ hx))]

theorem insertLoop_found_add {key value : String} {ttl : Nat} {now : Int}
    {n : Node} (pre post : List Node)
    (hpre : ∀ m ∈ pre, m.key ≠ key) (hk : n.key = key) :
    insertLoop key value ttl now 2 (pre ++ n :: post) =
      some (-1, pre ++ n :: post) := by
  induction pre with
  | nil =>
    simp only [List.nil_append]
    rw [insertLoop, if_pos hk, if_neg (by omega : ¬ (2 : Int) ≠ 2)]
  | cons m pre' ih =>
    simp only [List.cons_append]
    rw [insertLoop, if_neg (hpre m (List.mem_cons_self _ _)),
      ih (fun x hx => hpre x (List.mem_cons_of_mem _ hx))]

/-- Replacing the node in the middle of a key-nodup list by one with the same
key preserves key-nodup. -/
theorem keyNodup_congr_mid {A B : List Node} {n n' : Node} (hkey : n'.key = n.key)
    (h : keyNodup (A ++ n :: B)) : keyNodup (A ++ n' :: B) := by
  rw [keyNodup, List.pairwise_append] at h ⊢
  obtain ⟨hA, hnB, hAB⟩ := h
  rw [List.pairwise_cons] at hnB ⊢
  refine ⟨hA, ⟨?_, hnB.2⟩, ?_⟩
  · intro b hb; rw [hkey]; exact hnB.1 b hb
  · intro a ha b hb
    rcases List.mem_cons.mp hb with rfl | hb'
    · rw [hkey]; exact hAB a ha n (List.mem_cons_self _ _)
    · exact hAB a ha b (List.mem_cons_of_mem _ hb')

/-- Pushing a fresh-key node (with correct cached hash) onto the front of its
bucket and incrementing the count: well-formedness is preserved and the
contents gain exactly that node. -/
theorem add_node_facts {t : HashTable} {k : String} (hWF : WF t)
    (habs : keyAbsent k t) (n₀ : Node) (hk : n₀.key = k) (hh : n₀.hash = hash k)
    (t₂ : HashTable)
    (ht₂ : t₂ = { t with
        buckets := t.buckets.set (hash k % t.capacity)
          (n₀ :: t.buckets.getD (hash k % t.capacity) []),
        count := t.count + 1 }) :
    WF t₂ ∧ (allNodes t₂).Perm (n₀ :: allNodes t) := by
  obtain ⟨hcap, hlen, hhash, hbucket, hnd, hcount⟩ := hWF
  have hidx : hash k % t.capacity < t.buckets.length := by
    rw [hlen]; exact Nat.mod_lt _ hcap
  have hA : allNodes t = (t.buckets.take (hash k % t.capacity)).flatten ++
      t.buckets.getD (hash k % t.capacity) [] ++
      (t.buckets.drop (hash k % t.capacity + 1)).flatten :=
    flatten_decomp t.buckets _ [] hidx
  have hA₂ : allNodes t₂ = (t.buckets.take (hash k % t.capacity)).flatten ++
      (n₀ :: t.buckets.getD (hash k % t.capacity) []) ++
      (t.buckets.drop (hash k % t.capacity + 1)).flatten := by
    rw [ht₂, allNodes]
    exact flatten_set t.buckets _ _ hidx
  have hperm : (allNodes t₂).Perm (n₀ :: allNodes t) := by
    rw [hA, hA₂]
    simp only [List.append_assoc, List.cons_append]
    exact List.perm_middle
  have hnodup₂ : keyNodup (allNodes t₂) := by
    have hstep : keyNodup (n₀ :: allNodes t) := by
      rw [keyNodup, List.pairwise_cons]
      exact ⟨fun m hm heq => habs m hm (heq.symm.trans hk), hnd⟩
    exact ((List.Perm.pairwise_iff (fun h => (h ∘ Eq.symm))) hperm).mpr hstep
  refine ⟨⟨?_, ?_, ?_, ?_, hnodup₂, ?_⟩, hperm⟩
  · rw [ht₂]; exact hcap
  · rw [ht₂]; simpa using hlen
  · intro m hm
    rcases List.mem_cons.mp (hperm.mem_iff.mp hm) with rfl | hm'
    · rw [hh, hk]
    · exact hhash m hm'
  · intro i hi m hm
    rw [ht₂] at hi hm
    simp only [List.length_set] at hi
    by_cases hieq : i = hash k % t.capacity
    · subst hieq
      simp only at hm
      rw [getD_set_self _ _ _ _ hidx] at hm
      rcases List.mem_cons.mp hm with rfl | hm'
      · have hc : t₂.capacity = t.capacity := by rw [ht₂]
        rw [hc, hh]
      · have := hbucket _ hidx m hm'
        rw [ht₂]; simpa using this
    · simp only at hm
      rw [getD_set_ne _ _ _ _ _ (fun h => hieq h.symm)] at hm
      have := hbucket i hi m hm
      rw [ht₂]; simpa using this
  · have hc2 : t₂.count = t.count + 1 := by rw [ht₂]
    rw [hc2, hperm.length_eq]
    simp [hcount]

/-- Replacing the unique `k`-node in place by a node with the same key and
hash: well-formedness, count and capacity are preserved and the new node is
present. -/
theorem replace_node_facts {t : HashTable} {k : String} {n : Node} (n' : Node)
    (hWF : WF t) (hn : n ∈ allNodes t) (hk : n.key = k)
    (hkey : n'.key = n.key) (hhash' : n'.hash = n.hash)
    {pre post : List Node}
    (hsplit : t.buckets.getD (hash k % t.capacity) [] = pre ++ n :: post)
    (t₂ : HashTable)
    (ht₂ : t₂ = { t with
        buckets := t.buckets.set (hash k % t.capacity) (pre ++ n' :: post) }) :
    WF t₂ ∧ n' ∈ allNodes t₂ ∧ t₂.count = t.count ∧ t₂.capacity = t.capacity := by
  obtain ⟨hcap, hlen, hhash, hbucket, hnd, hcount⟩ := hWF
  have hidx : hash k % t.capacity < t.buckets.length := by
    rw [hlen]; exact Nat.mod_lt _ hcap
  have hA : allNodes t = (t.buckets.take (hash k % t.capacity)).flatten ++
      (pre ++ n :: post) ++
      (t.buckets.drop (hash k % t.capacity + 1)).flatten := by
    rw [allNodes, flatten_decomp t.buckets _ [] hidx, hsplit]
  have hA₂ : allNodes t₂ = (t.buckets.take (hash k % t.capacity)).flatten ++
      (pre ++ n' :: post) ++
      (t.buckets.drop (hash k % t.capacity + 1)).flatten := by
    rw [ht₂, allNodes]
    exact flatten_set t.buckets _ _ hidx
  have hmem₂ : n' ∈ allNodes t₂ := by rw [hA₂]; simp
  have hre : ∀ (m : Node),
      (t.buckets.take (hash k % t.capacity)).flatten ++ (pre ++ m :: post) ++
        (t.buckets.drop (hash k % t.capacity + 1)).flatten =
      ((t.buckets.take (hash k % t.capacity)).flatten ++ pre) ++ m ::
        (post ++ (t.buckets.drop (hash k % t.capacity + 1)).flatten) := by
    intro m; simp [List.append_assoc]
  have hnodup₂ : keyNodup (allNodes t₂) := by
    rw [hA₂, hre n']
    rw [hA, hre n] at hnd
    exact keyNodup_congr_mid hkey hnd
  have hlen₂ : (allNodes t₂).length = (allNodes t).length := by
    rw [hA, hA₂]
    simp only [List.length_append, List.length_cons]
  have hmemold : ∀ m ∈ allNodes t₂, m = n' ∨ m ∈ allNodes t := by
    intro m hm
    rw [hA₂] at hm
    rw [hA]
    simp only [List.mem_append, List.mem_cons] at hm ⊢
    tauto
  refine ⟨⟨?_, ?_, ?_, ?_, hnodup₂, ?_⟩, hmem₂, by rw [ht₂], by rw [ht₂]⟩
  · rw [ht₂]; exact hcap
  · rw [ht₂]; simpa using hlen
  · intro m hm
    rcases hmemold m hm with rfl | hm'
    · rw [hhash', hhash n hn, hkey]
    · exact hhash m hm'
  · intro i hi m hm
    rw [ht₂] at hi hm
    simp only [List.length_set] at hi
    by_cases hieq : i = hash k % t.capacity
    · subst hieq
      simp only at hm
      rw [getD_set_self _ _ _ _ hidx] at hm
      have hmn : m.hash % t.capacity = hash k % t.capacity := by
        rcases List.mem_append.mp hm with hp | hq
        · have : m ∈ t.buckets.getD (hash k % t.capacity) [] := by
            rw [hsplit]; exact List.mem_append.mpr (Or.inl hp)
          exact hbucket _ hidx m this
        · rcases List.mem_cons.mp hq with rfl | hq'
          · rw [hhash']
            have : n ∈ t.buckets.getD (hash k % t.capacity) [] := by
              rw [hsplit]; simp
            exact hbucket _ hidx n this
          · have : m ∈ t.buckets.getD (hash k % t.capacity) [] := by
              rw [hsplit]
              exact List.mem_append.mpr (Or.inr (List.mem_cons_of_mem _ hq'))
            exact hbucket _ hidx m this
      rw [ht₂]; simpa using hmn
    · simp only at hm
      rw [getD_set_ne _ _ _ _ _ (fun h => hieq h.symm)] at hm
      have := hbucket i hi m hm
      rw [ht₂]; simpa using this
  · have hc2 : t₂.count = t.count := by rw [ht₂]
    rw [hc2, hcount, hlen₂]

/-! ## `insert` on well-formed tables -/

/-- `insert` unfolded, relative to the table `t₁` left by the load-factor
check. -/
theorem insert_eq_general {t t₁ : HashTable}
    (ht₁ : t₁ = if LOAD_FACTOR_NUM * t.capacity < 4 * t.count then resize_table t else t)
    (k v : String) (ttl : Nat) (ty : Int) (now : Int) :
    insert k v ttl ty now t =
      match insertLoop k v ttl now ty (t₁.buckets.getD (hash k % t₁.capacity) []) with
      | some (r, chain') =>
        (r, { t₁ with buckets := t₁.buckets.set (hash k % t₁.capacity) chain' })
      | none =>
        if ty ≠ 1 then
          (1, { t₁ with
                  buckets := t₁.buckets.set (hash k % t₁.capacity)
                    ({ key := k, value := v, created_at := now, ttl := toTimeT ttl,
                       hash := hash k } :: t₁.buckets.getD (hash k % t₁.capacity) []),
                  count := t₁.count + 1 })
        else (-1, t₁) := by
  subst ht₁; rfl

/-- The load-factor check preserves well-formedness, contents and count. -/
theorem preResize_facts {t : HashTable} (hWF : WF t) :
    WF (if LOAD_FACTOR_NUM * t.capacity < 4 * t.count then resize_table t else t) ∧
    (if LOAD_FACTOR_NUM * t.capacity < 4 * t.count then resize_table t else t).count
      = t.count ∧
    (allNodes (if LOAD_FACTOR_NUM * t.capacity < 4 * t.count then resize_table t
      else t)).Perm (allNodes t) := by
  by_cases h : LOAD_FACTOR_NUM * t.capacity < 4 * t.count
  · rw [if_pos h]
    obtain ⟨a, -, c, d⟩ := resize_facts hWF
    exact ⟨a, c, d⟩
  · rw [if_neg h]
    exact ⟨hWF, rfl, List.Perm.refl _⟩

/-- `insert` of an absent key with a mode that may create (`type ≠ 1`):
reports success, adds exactly the new node, increments the count. -/
theorem insert_absent_facts {t : HashTable} {k v : String} {ttl : Nat} {ty : Int}
    {now : Int} (hWF : WF t) (habs : keyAbsent k t) (hty : ty ≠ 1) :
    (insert k v ttl ty now t).1 = 1 ∧
    WF (insert k v ttl ty now t).2 ∧
    (insert k v ttl ty now t).2.count = t.count + 1 ∧
    (allNodes (insert k v ttl ty now t).2).Perm
      ({ key := k, value := v, created_at := now, ttl := toTimeT ttl, hash := hash k }
        :: allNodes t) ∧
    (insert k v ttl ty now t).2.capacity =
      (if LOAD_FACTOR_NUM * t.capacity < 4 * t.count then resize_table t
        else t).capacity := by
  obtain ⟨hWF₁, hcnt₁, hperm₁⟩ := preResize_facts hWF
  set t₁ := if LOAD_FACTOR_NUM * t.capacity < 4 * t.count then resize_table t else t
    with ht₁
  have hidx₁ : hash k % t₁.capacity < t₁.buckets.length := by
    rw [hWF₁.2.1]; exact Nat.mod_lt _ hWF₁.1
  have habs₁ : keyAbsent k t₁ := fun m hm => habs m (hperm₁.mem_iff.mp hm)
  have hloop : insertLoop k v ttl now ty (t₁.buckets.getD (hash k % t₁.capacity) [])
      = none :=
    insertLoop_not_found (fun m hm => habs₁ m (getD_subset_flatten _ _ hidx₁ m hm))
  have hres : insert k v ttl ty now t =
      (1, { t₁ with
              buckets := t₁.buckets.set (hash k % t₁.capacity)
                ({ key := k, value := v, created_at := now, ttl := toTimeT ttl,
                   hash := hash k } :: t₁.buckets.getD (hash k % t₁.capacity) []),
              count := t₁.count + 1 }) := by
    rw [insert_eq_general ht₁ k v ttl ty now, hloop]
    simp only [if_pos hty]
  obtain ⟨hWF₂, hperm₂⟩ := add_node_facts hWF₁ habs₁
    { key := k, value := v, created_at := now, ttl := toTimeT ttl, hash := hash k }
    rfl rfl { t₁ with
        buckets := t₁.buckets.set (hash k % t₁.capacity)
          ({ key := k, value := v, created_at := now, ttl := toTimeT ttl,
             hash := hash k } :: t₁.buckets.getD (hash k % t₁.capacity) []),
        count := t₁.count + 1 } rfl
  refine ⟨by rw [hres], by rw [hres]; exact hWF₂, by rw [hres]; simpa using hcnt₁, ?_, ?_⟩
  · rw [hres]
    exact hperm₂.trans (hperm₁.cons _)
  · rw [hres]

/-- `update` (`type = 1`) of an absent key: reports failure and returns the
table exactly as the load-factor check left it. -/
theorem insert_update_absent {t : HashTable} {k v : String} {ttl : Nat} {now : Int}
    (hWF : WF t) (habs : keyAbsent k t) :
    insert k v ttl 1 now t =
      (-1, if LOAD_FACTOR_NUM * t.capacity < 4 * t.count then resize_table t else t) := by
  obtain ⟨hWF₁, hcnt₁, hperm₁⟩ := preResize_facts hWF
  set t₁ := if LOAD_FACTOR_NUM * t.capacity < 4 * t.count then resize_table t else t
    with ht₁
  have hidx₁ : hash k % t₁.capacity < t₁.buckets.length := by
    rw [hWF₁.2.1]; exact Nat.mod_lt _ hWF₁.1
  have habs₁ : keyAbsent k t₁ := fun m hm => habs m (hperm₁.mem_iff.mp hm)
  have hloop : insertLoop k v ttl now 1 (t₁.buckets.getD (hash k % t₁.capacity) [])
      = none :=
    insertLoop_not_found (fun m hm => habs₁ m (getD_subset_flatten _ _ hidx₁ m hm))
  rw [insert_eq_general ht₁ k v ttl 1 now, hloop]
  simp

/-- `insert` of a present key with a replacing mode (`type ≠ 2`): reports
success and replaces value, ttl and creation time of the unique entry in
place; count is unchanged. -/
theorem insert_present_replace {t : HashTable} {k v : String} {ttl : Nat} {ty : Int}
    {now : Int} {n : Node} (hWF : WF t) (hn : n ∈ allNodes t) (hk : n.key = k)
    (hty : ty ≠ 2) :
    (insert k v ttl ty now t).1 = 1 ∧
    WF (insert k v ttl ty now t).2 ∧
    (insert k v ttl ty now t).2.count = t.count ∧
    { key := k, value := v, created_at := now, ttl := toTimeT ttl, hash := hash k }
      ∈ allNodes (insert k v ttl ty now t).2 ∧
    (insert k v ttl ty now t).2.capacity =
      (if LOAD_FACTOR_NUM * t.capacity < 4 * t.count then resize_table t
        else t).capacity := by
  obtain ⟨hWF₁, hcnt₁, hperm₁⟩ := preResize_facts hWF
  set t₁ := if LOAD_FACTOR_NUM * t.capacity < 4 * t.count then resize_table t else t
    with ht₁
  have hidx₁ : hash k % t₁.capacity < t₁.buckets.length := by
    rw [hWF₁.2.1]; exact Nat.mod_lt _ hWF₁.1
  have hn₁ : n ∈ allNodes t₁ := hperm₁.mem_iff.mpr hn
  have hchain : n ∈ t₁.buckets.getD (hash k % t₁.capacity) [] := by
    have := node_in_own_bucket hWF₁ hn₁
    rwa [hk] at this
  obtain ⟨pre, post, hsplit, hpre, -⟩ :=
    chain_split_of_mem (chain_keyNodup hWF₁ hidx₁) hchain
  have hloop : insertLoop k v ttl now ty (t₁.buckets.getD (hash k % t₁.capacity) [])
      = some (1, pre ++ { n with value := v, ttl := toTimeT ttl,
                                 created_at := now } :: post) := by
    rw [hsplit]
    exact insertLoop_found_replace hty pre post
      (fun m hm heq => hpre m hm (heq.trans hk.symm)) hk
  have hres : insert k v ttl ty now t =
      (1, { t₁ with
              buckets := t₁.buckets.set (hash k % t₁.capacity)
                (pre ++ { n with value := v, ttl := toTimeT ttl,
                                 created_at := now } :: post) }) := by
    rw [insert_eq_general ht₁ k v ttl ty now, hloop]
  obtain ⟨hWF₂, hmem₂, hcnt₂, hcap₂⟩ := replace_node_facts
    { n with value := v, ttl := toTimeT ttl, created_at := now }
    hWF₁ hn₁ hk rfl rfl hsplit
    { t₁ with
        buckets := t₁.buckets.set (hash k % t₁.capacity)
          (pre ++ { n with value := v, ttl := toTimeT ttl,
                           created_at := now } :: post) } rfl
  have hn'eq : ({ n with value := v, ttl := toTimeT ttl, created_at := now } : Node)
      = { key := k, value := v, created_at := now, ttl := toTimeT ttl,
          hash := hash k } := by
    rw [show n.key = k from hk, show n.hash = hash k from by
      rw [hWF₁.2.2.1 n hn₁, hk]]
  refine ⟨by rw [hres], by rw [hres]; exact hWF₂,
    by rw [hres]; rw [show ({ t₁ with
        buckets := t₁.buckets.set (hash k % t₁.capacity)
          (pre ++ { n with value := v, ttl := toTimeT ttl,
                           created_at := now } :: post) } : HashTable).count = t₁.count
      from rfl]; exact hcnt₁, ?_, by rw [hres]⟩
  rw [hres, ← hn'eq]
  exact hmem₂

/-- `add` (`type = 2`) of a present key: reports failure and returns the table
exactly as the load-factor check left it (the entry is untouched). -/
theorem insert_present_add {t : HashTable} {k v : String} {ttl : Nat} {now : Int}
    {n : Node} (hWF : WF t) (hn : n ∈ allNodes t) (hk : n.key = k) :
    insert k v ttl 2 now t =
      (-1, if LOAD_FACTOR_NUM * t.capacity < 4 * t.count then resize_table t else t) := by
  obtain ⟨hWF₁, hcnt₁, hperm₁⟩ := preResize_facts hWF
  set t₁ := if LOAD_FACTOR_NUM * t.capacity < 4 * t.count then resize_table t else t
    with ht₁
  have hidx₁ : hash k % t₁.capacity < t₁.buckets.length := by
    rw [hWF₁.2.1]; exact Nat.mod_lt _ hWF₁.1
  have hn₁ : n ∈ allNodes t₁ := hperm₁.mem_iff.mpr hn
  have hchain : n ∈ t₁.buckets.getD (hash k % t₁.capacity) [] := by
    have := node_in_own_bucket hWF₁ hn₁
    rwa [hk] at this
  obtain ⟨pre, post, hsplit, hpre, -⟩ :=
    chain_split_of_mem (chain_keyNodup hWF₁ hidx₁) hchain
  have hloop : insertLoop k v ttl now 2 (t₁.buckets.getD (hash k % t₁.capacity) [])
      = some (-1, t₁.buckets.getD (hash k % t₁.capacity) []) := by
    rw [hsplit]
    exact insertLoop_found_add pre post
      (fun m hm heq => hpre m hm (heq.trans hk.symm)) hk
  rw [insert_eq_general ht₁ k v ttl 2 now, hloop]
  change ((-1 : Int),
    { t₁ with
        buckets := t₁.buckets.set (hash k % t₁.capacity)
                     (t₁.buckets.getD (hash k % t₁.capacity) []) }) = (-1, t₁)
  rw [set_getD_self]

/-! ## `garbage_collect` -/

theorem flatten_map_filter {p : Node → Bool} :
    ∀ l : List (List Node), (l.map (List.filter p)).flatten = l.flatten.filter p := by
  intro l
  induction l with
  | nil => rfl
  | cons c rest ih =>
    simp only [List.map_cons, List.flatten_cons, List.filter_append, ih]

theorem getD_map {l : List (List Node)} {f : List Node → List Node} {i : Nat}
    (hi : i < l.length) : (l.map f).getD i [] = f (l.getD i []) := by
  rw [getD_eq_get _ _ _ (by simpa using hi), getD_eq_get _ _ _ hi]
  simp

/-- `garbage_collect` unfolded. -/
theorem garbage_collect_eq (now : Int) (t : HashTable) :
    garbage_collect now t =
      { buckets := t.buckets.map (gcChain now), capacity := t.capacity,
        count := t.count - ((allNodes t).length -
          (allNodes (garbage_collect now t)).length) } := rfl

/-- `garbage_collect` keeps exactly the unexpired entries, preserves
well-formedness and capacity, and cannot increase the count. -/
theorem gc_facts {t : HashTable} (hWF : WF t) (now : Int) :
    WF (garbage_collect now t) ∧
    (garbage_collect now t).capacity = t.capacity ∧
    allNodes (garbage_collect now t) =
      (allNodes t).filter (fun node => ¬ (node.ttl < now - node.created_at)) ∧
    (garbage_collect now t).count ≤ t.count := by
  obtain ⟨hcap, hlen, hhash, hbucket, hnd, hcount⟩ := hWF
  have hall : allNodes (garbage_collect now t) =
      (allNodes t).filter (fun node => ¬ (node.ttl < now - node.created_at)) := by
    rw [allNodes, garbage_collect_eq]
    exact flatten_map_filter t.buckets
  have hsub : (allNodes (garbage_collect now t)).Sublist (allNodes t) := by
    rw [hall]; exact List.filter_sublist _
  have hlenle : (allNodes (garbage_collect now t)).length ≤ (allNodes t).length :=
    hsub.length_le
  have hcnteq : (garbage_collect now t).count =
      t.count - ((allNodes t).length - (allNodes (garbage_collect now t)).length) := by
    conv_lhs => rw [garbage_collect_eq]
  have hcnt : (garbage_collect now t).count ≤ t.count := by omega
  refine ⟨⟨?_, ?_, ?_, ?_, ?_, ?_⟩, rfl, hall, hcnt⟩
  · exact hcap
  · have : (garbage_collect now t).buckets = t.buckets.map (gcChain now) := rfl
    rw [this]
    simpa using hlen
  · intro m hm; exact hhash m (hsub.mem hm)
  · intro i hi m hm
    have hb : (garbage_collect now t).buckets = t.buckets.map (gcChain now) := rfl
    rw [hb] at hi hm
    simp only [List.length_map] at hi
    rw [getD_map hi] at hm
    have hmm : m ∈ t.buckets.getD i [] := (List.filter_sublist _).mem hm
    exact hbucket i hi m hmm
  · exact hnd.sublist hsub
  · rw [hcnteq, hcount]
    omega

/-! ## `search` and `delete`, unconditionally -/

/-- Whatever `search` does on a well-formed table, the result is well formed,
capacity is kept and the count does not grow. -/
theorem search_wf (k : String) (now : Int) {t : HashTable} (hWF : WF t) :
    WF (search k now t).2 ∧ (search k now t).2.capacity = t.capacity ∧
    (search k now t).2.count ≤ t.count := by
  by_cases hex : ∃ n ∈ allNodes t, n.key = k
  · obtain ⟨n, hn, hk⟩ := hex
    by_cases hlive : now - n.created_at < n.ttl
    · rw [search_found hWF hn hk hlive]
      exact ⟨hWF, rfl, le_refl _⟩
    · obtain ⟨-, -, hcnt, -, hcap, hWF₂, -, -⟩ :=
        search_expired now hWF hn hk (by omega)
      exact ⟨hWF₂, hcap, by omega⟩
  · rw [search_absent hWF (fun m hm hkm => hex ⟨m, hm, hkm⟩)]
    exact ⟨hWF, rfl, le_refl _⟩

theorem deleteLoop_cases {h : Nat} {key : String} :
    ∀ (chain chain' : List Node), deleteLoop h key chain = some chain' →
      chain'.Sublist chain ∧ chain'.length + 1 = chain.length := by
  intro chain
  induction chain with
  | nil => intro chain' hdel; cases hdel
  | cons node rest ih =>
    intro chain' hdel
    rw [deleteLoop] at hdel
    split at hdel
    · cases hdel
      exact ⟨List.sublist_cons_self _ _, rfl⟩
    · revert hdel
      split
      · intro hdel
        cases hdel
        rename_i rest' hrest'
        obtain ⟨hsub, hlen⟩ := ih rest' hrest'
        exact ⟨hsub.cons₂ node, by simpa using hlen⟩
      · intro hdel; cases hdel

/-- Replacing the bucket at `i` by a sublist one element shorter and
decrementing the count keeps the table well formed. -/
theorem set_subchain_facts {t : HashTable} (hWF : WF t) {i : Nat}
    (hi : i < t.buckets.length) {chain' : List Node}
    (hsub : chain'.Sublist (t.buckets.getD i []))
    (hlen1 : chain'.length + 1 = (t.buckets.getD i []).length) :
    WF { t with buckets := t.buckets.set i chain', count := t.count - 1 } := by
  obtain ⟨hcap, hlen, hhash, hbucket, hnd, hcount⟩ := hWF
  have hA : allNodes t = (t.buckets.take i).flatten ++ t.buckets.getD i [] ++
      (t.buckets.drop (i + 1)).flatten := flatten_decomp t.buckets i [] hi
  have hA₂ : allNodes { t with
      buckets := t.buckets.set i chain',
      count := t.count - 1 } = (t.buckets.take i).flatten ++ chain' ++
      (t.buckets.drop (i + 1)).flatten := by
    rw [allNodes]
    exact flatten_set t.buckets i chain' hi
  have hsuball : (allNodes { t with
      buckets := t.buckets.set i chain',
      count := t.count - 1 }).Sublist (allNodes t) := by
    rw [hA, hA₂]
    exact ((List.Sublist.refl _).append hsub).append (List.Sublist.refl _)
  refine ⟨hcap, by simpa using hlen, ?_, ?_, hnd.sublist hsuball, ?_⟩
  · intro m hm; exact hhash m (hsuball.mem hm)
  · intro j hj m hm
    simp only [List.length_set] at hj
    simp only at hm
    by_cases hji : j = i
    · subst hji
      rw [getD_set_self _ _ _ _ hi] at hm
      exact hbucket j hj m (hsub.mem hm)
    · rw [getD_set_ne _ _ _ _ _ (fun h => hji h.symm)] at hm
      exact hbucket j hj m hm
  · simp only
    have e1 : (allNodes { t with
        buckets := t.buckets.set i chain',
        count := t.count - 1 }).length + 1 = (allNodes t).length := by
      rw [hA, hA₂]
      simp only [List.length_append]
      omega
    omega

/-- Whatever `delete` does on a well-formed table, the result is well formed,
capacity is kept and the count does not grow. -/
theorem delete_facts (k : String) (now : Int) {t : HashTable} (hWF : WF t) :
    WF (delete k now t).2 ∧ (delete k now t).2.capacity = t.capacity ∧
    (delete k now t).2.count ≤ t.count := by
  obtain ⟨hWF₁, hcap₁, hcnt₁⟩ := search_wf k now hWF
  rcases hs : search k now t with ⟨r, t₁⟩
  rw [hs] at hWF₁ hcap₁ hcnt₁
  simp only at hWF₁ hcap₁ hcnt₁
  have hidx₁ : hash k % t₁.capacity < t₁.buckets.length := by
    rw [hWF₁.2.1]; exact Nat.mod_lt _ hWF₁.1
  simp only [delete, hs]
  cases r with
  | none => exact ⟨hWF₁, hcap₁, hcnt₁⟩
  | some n =>
    simp only
    rcases hdel : deleteLoop (hash k) k (t₁.buckets.getD (hash k % t₁.capacity) [])
      with - | chain'
    · exact ⟨hWF₁, hcap₁, hcnt₁⟩
    · obtain ⟨hsub, hlen1⟩ := deleteLoop_cases _ chain' hdel
      refine ⟨set_subchain_facts hWF₁ hidx₁ hsub hlen1, ?_, ?_⟩
      · simpa using hcap₁
      · simp only
        omega

/-! ## The reachability invariant -/

/-- `insert`, for any of the three modes, on a well-formed table: the result
is well formed, the count grows by at most one, and the capacity either stays
(when the load factor check fails) or triples (when it fires). -/
theorem insert_op_facts {t : HashTable} (k v : String) (ttl : Nat) (ty : Int)
    (now : Int) (hWF : WF t) (hty : ty = 0 ∨ ty = 1 ∨ ty = 2) :
    WF (insert k v ttl ty now t).2 ∧
    (insert k v ttl ty now t).2.count ≤ t.count + 1 ∧
    (insert k v ttl ty now t).2.capacity =
      (if LOAD_FACTOR_NUM * t.capacity < 4 * t.count then t.capacity * 3
        else t.capacity) := by
  have hcapif : (if LOAD_FACTOR_NUM * t.capacity < 4 * t.count then resize_table t
      else t).capacity =
      (if LOAD_FACTOR_NUM * t.capacity < 4 * t.count then t.capacity * 3
        else t.capacity) := by
    by_cases h : LOAD_FACTOR_NUM * t.capacity < 4 * t.count
    · rw [if_pos h, if_pos h]
      exact (resize_facts hWF).2.1
    · rw [if_neg h, if_neg h]
  have hcntif : (if LOAD_FACTOR_NUM * t.capacity < 4 * t.count then resize_table t
      else t).count = t.count := (preResize_facts hWF).2.1
  have hWFif : WF (if LOAD_FACTOR_NUM * t.capacity < 4 * t.count then resize_table t
      else t) := (preResize_facts hWF).1
  by_cases hex : ∃ n ∈ allNodes t, n.key = k
  · obtain ⟨n, hn, hk⟩ := hex
    by_cases hty2 : ty = 2
    · subst hty2
      rw [insert_present_add hWF hn hk]
      refine ⟨hWFif, ?_, hcapif⟩
      show (if LOAD_FACTOR_NUM * t.capacity < 4 * t.count then resize_table t
        else t).count ≤ t.count + 1
      rw [hcntif]
      omega
    · obtain ⟨-, hWF₂, hcnt₂, -, hcap₂⟩ := insert_present_replace hWF hn hk hty2
      exact ⟨hWF₂, by omega, by rw [hcap₂, hcapif]⟩
  · have habs : keyAbsent k t := fun m hm hkm => hex ⟨m, hm, hkm⟩
    by_cases hty1 : ty = 1
    · subst hty1
      rw [insert_update_absent hWF habs]
      refine ⟨hWFif, ?_, hcapif⟩
      show (if LOAD_FACTOR_NUM * t.capacity < 4 * t.count then resize_table t
        else t).count ≤ t.count + 1
      rw [hcntif]
      omega
    · obtain ⟨-, hWF₂, hcnt₂, -, hcap₂⟩ := insert_absent_facts hWF habs hty1
      exact ⟨hWF₂, by omega, by rw [hcap₂, hcapif]⟩

/-- One operation preserves well-formedness and the (amended) load-factor
bound `4·count ≤ 3·capacity + 4`. -/
theorem applyOp_preserves {t : HashTable} (op : Op) (hWF : WF t)
    (hinv : 4 * t.count ≤ 3 * t.capacity + 4) :
    WF (applyOp t op) ∧ 4 * (applyOp t op).count ≤ 3 * (applyOp t op).capacity + 4 := by
  have hcap : 1 ≤ t.capacity := hWF.1
  cases op with
  | write k v ttl now =>
    obtain ⟨hWF', hcnt', hcap'⟩ := insert_op_facts k v ttl 0 now hWF (Or.inl rfl)
    refine ⟨hWF', ?_⟩
    show 4 * (insert k v ttl 0 now t).2.count ≤
      3 * (insert k v ttl 0 now t).2.capacity + 4
    rw [hcap']
    by_cases h : LOAD_FACTOR_NUM * t.capacity < 4 * t.count
    · rw [if_pos h]
      have h' : 3 * t.capacity < 4 * t.count := h
      omega
    · rw [if_neg h]
      have h' : ¬ 3 * t.capacity < 4 * t.count := h
      omega
  | update k v ttl now =>
    obtain ⟨hWF', hcnt', hcap'⟩ := insert_op_facts k v ttl 1 now hWF (Or.inr (Or.inl rfl))
    refine ⟨hWF', ?_⟩
    show 4 * (insert k v ttl 1 now t).2.count ≤
      3 * (insert k v ttl 1 now t).2.capacity + 4
    rw [hcap']
    by_cases h : LOAD_FACTOR_NUM * t.capacity < 4 * t.count
    · rw [if_pos h]
      have h' : 3 * t.capacity < 4 * t.count := h
      omega
    · rw [if_neg h]
      have h' : ¬ 3 * t.capacity < 4 * t.count := h
      omega
  | add k v ttl now =>
    obtain ⟨hWF', hcnt', hcap'⟩ := insert_op_facts k v ttl 2 now hWF (Or.inr (Or.inr rfl))
    refine ⟨hWF', ?_⟩
    show 4 * (insert k v ttl 2 now t).2.count ≤
      3 * (insert k v ttl 2 now t).2.capacity + 4
    rw [hcap']
    by_cases h : LOAD_FACTOR_NUM * t.capacity < 4 * t.count
    · rw [if_pos h]
      have h' : 3 * t.capacity < 4 * t.count := h
      omega
    · rw [if_neg h]
      have h' : ¬ 3 * t.capacity < 4 * t.count := h
      omega
  | searchOp k now =>
    obtain ⟨hWF', hcap', hcnt'⟩ := search_wf k now hWF
    refine ⟨hWF', ?_⟩
    show 4 * (search k now t).2.count ≤ 3 * (search k now t).2.capacity + 4
    rw [hcap']
    omega
  | deleteOp k now =>
    obtain ⟨hWF', hcap', hcnt'⟩ := delete_facts k now hWF
    refine ⟨hWF', ?_⟩
    show 4 * (delete k now t).2.count ≤ 3 * (delete k now t).2.capacity + 4
    rw [hcap']
    omega
  | gc now =>
    obtain ⟨hWF', hcap', -, hcnt'⟩ := gc_facts hWF now
    refine ⟨hWF', ?_⟩
    show 4 * (garbage_collect now t).count ≤ 3 * (garbage_collect now t).capacity + 4
    rw [hcap']
    omega
  | wipe =>
    refine ⟨WF_create INITIAL_CAPACITY (by decide), ?_⟩
    show 4 * (create_table INITIAL_CAPACITY).count ≤
      3 * (create_table INITIAL_CAPACITY).capacity + 4
    decide

theorem foldl_applyOp_invariant :
    ∀ (ops : List Op) (t : HashTable), WF t → 4 * t.count ≤ 3 * t.capacity + 4 →
      WF (ops.foldl applyOp t) ∧
      4 * (ops.foldl applyOp t).count ≤ 3 * (ops.foldl applyOp t).capacity + 4 := by
  intro ops
  induction ops with
  | nil => intro t hWF hinv; exact ⟨hWF, hinv⟩
  | cons op rest ih =>
    intro t hWF hinv
    obtain ⟨hWF', hinv'⟩ := applyOp_preserves op hWF hinv
    simpa using ih (applyOp t op) hWF' hinv'

/-- Every state reachable by store operations from the startup table is well
formed and satisfies the amended load-factor bound. -/
theorem runOps_invariant (ops : List Op) :
    WF (runOps ops) ∧ 4 * (runOps ops).count ≤ 3 * (runOps ops).capacity + 4 := by
  rw [runOps]
  exact foldl_applyOp_invariant ops (create_table INITIAL_CAPACITY)
    (WF_create INITIAL_CAPACITY (by decide)) (by decide)

/-! ## A run of fresh-key writes (for the load-factor counterexample) -/

theorem repKey_injective : Function.Injective repKey := by
  intro a b h
  have h2 : (repKey a).data.length = (repKey b).data.length := by rw [h]
  have h3 : (List.replicate (a + 1) 'a').length = (List.replicate (b + 1) 'a').length := h2
  simp only [List.length_replicate] at h3
  omega

/-- Writing a list of pairwise-distinct keys, all absent and fitting under the
resize threshold at every step: each write inserts, so the count grows by the
number of keys and the capacity never changes. -/
theorem runWrites_fresh :
    ∀ (ks : List String) (t : HashTable), WF t → ks.Nodup →
      (∀ k ∈ ks, keyAbsent k t) →
      4 * (t.count + ks.length) ≤ 3 * t.capacity + 4 →
      ((ks.map (fun k => Op.write k "v" 100 0)).foldl applyOp t).count
        = t.count + ks.length ∧
      ((ks.map (fun k => Op.write k "v" 100 0)).foldl applyOp t).capacity
        = t.capacity := by
  intro ks
  induction ks with
  | nil => intro t _ _ _ _; exact ⟨by simp, rfl⟩
  | cons k ks' ih =>
    intro t hWF hnd habs hbound
    simp only [List.map_cons, List.foldl_cons, List.length_cons] at hbound ⊢
    have hnores : ¬ LOAD_FACTOR_NUM * t.capacity < 4 * t.count := by
      have h' : LOAD_FACTOR_NUM * t.capacity = 3 * t.capacity := rfl
      omega
    obtain ⟨-, hWF', hcnt', hperm', hcap'⟩ :=
      insert_absent_facts hWF (habs k (List.mem_cons_self _ _)) (by decide : (0:Int) ≠ 1)
    have hcapeq : (insert k "v" 100 0 0 t).2.capacity = t.capacity := by
      rw [hcap', if_neg hnores]
    have habs' : ∀ k' ∈ ks', keyAbsent k' (insert k "v" 100 0 0 t).2 := by
      intro k' hk' m hm hkm
      rcases List.mem_cons.mp (hperm'.mem_iff.mp hm) with rfl | hmold
      · have hkk : k = k' := hkm
        rw [hkk] at hnd
        exact (List.nodup_cons.mp hnd).1 hk'
      · exact habs k' (List.mem_cons_of_mem _ hk') m hmold hkm
    have happ : applyOp t (Op.write k "v" 100 0) = (insert k "v" 100 0 0 t).2 := rfl
    rw [happ]
    obtain ⟨ihc, ihcap⟩ := ih (insert k "v" 100 0 0 t).2 hWF'
      (List.nodup_cons.mp hnd).2 habs' (by rw [hcnt', hcapeq]; omega)
    rw [ihc, ihcap, hcnt', hcapeq]
    constructor
    · omega
    · rfl

/-- The 768 distinct-key writes of `cexOps`, run from the startup table:
count 768, capacity still 1023 — a load factor strictly above 3/4. -/
theorem cexOps_run :
    (runOps cexOps).count = 768 ∧ (runOps cexOps).capacity = 1023 := by
  have hmap : ((List.range 768).map repKey).map (fun k => Op.write k "v" 100 0)
      = cexOps := by
    rw [List.map_map]
    rfl
  have hnd : ((List.range 768).map repKey).Nodup :=
    (List.nodup_range 768).map repKey_injective
  have habs : ∀ k ∈ (List.range 768).map repKey, keyAbsent k (create_table 1023) := by
    intro k _ m hm
    rw [allNodes_create] at hm
    cases hm
  have hlen : ((List.range 768).map repKey).length = 768 := by
    rw [List.length_map, List.length_range]
  have e1 : (create_table 1023).count = 0 := rfl
  have e2 : (create_table 1023).capacity = 1023 := rfl
  have hbound : 4 * ((create_table 1023).count + ((List.range 768).map repKey).length)
      ≤ 3 * (create_table 1023).capacity + 4 := by
    rw [e1, e2, hlen]
    omega
  obtain ⟨hc, hcap⟩ := runWrites_fresh ((List.range 768).map repKey)
    (create_table 1023) (WF_create 1023 (by decide)) hnd habs hbound
  rw [hmap] at hc hcap
  constructor
  · show (cexOps.foldl applyOp (create_table 1023)).count = 768
    rw [hc, hlen, e1]
  · show (cexOps.foldl applyOp (create_table 1023)).capacity = 1023
    rw [hcap, e2]

/-! ## `dump_store` -/

theorem dump_store_none {index offset : Nat} {now : Int} {t : HashTable}
    (h : t.capacity ≤ index ∨ t.capacity ≤ (index + offset) % 2 ^ 64) :
    dump_store index offset now t = (none, t) := by
  rw [dump_store, if_pos h]

theorem dump_store_some {index offset : Nat} {now : Int} {t : HashTable}
    (h1 : ¬ (t.capacity ≤ index ∨ t.capacity ≤ (index + offset) % 2 ^ 64)) :
    dump_store index offset now t =
      (some (((List.range' index ((index + offset) % 2 ^ 64 - index)).map
          (fun i => ((garbage_collect now t).buckets.getD i []).map (fun n => (i, n)))).flatten),
       garbage_collect now t) := by
  rw [dump_store, if_neg h1]

/-- The rows listed by a successful dump are exactly the post-sweep entries of
the buckets in `[index, index + offset)`. -/
theorem mem_dump_rows {index offset : Nat} {t' : HashTable} {p : Nat × Node} :
    p ∈ ((List.range' index offset).map
        (fun i => (t'.buckets.getD i []).map (fun n => (i, n)))).flatten ↔
      (index ≤ p.1 ∧ p.1 < index + offset ∧ p.2 ∈ t'.buckets.getD p.1 []) := by
  rw [List.mem_flatten]
  constructor
  · rintro ⟨row, hrow, hp⟩
    rw [List.mem_map] at hrow
    obtain ⟨i, hi, rfl⟩ := hrow
    rw [List.mem_map] at hp
    obtain ⟨n, hn, rfl⟩ := hp
    rw [List.mem_range'_1] at hi
    exact ⟨hi.1, hi.2, hn⟩
  · rintro ⟨h1, h2, h3⟩
    refine ⟨(t'.buckets.getD p.1 []).map (fun n => (p.1, n)), ?_, ?_⟩
    · rw [List.mem_map]
      exact ⟨p.1, by rw [List.mem_range'_1]; exact ⟨h1, h2⟩, rfl⟩
    · rw [List.mem_map]
      exact ⟨p.2, h3, rfl⟩

/-! ## The command dispatch -/

theorem dispatch_invalid {sr : ScanResult} {now : Int} {t : HashTable}
    (hn : ¬ 1 ≤ sr.n) : dispatch sr now t = (.errInvalid, t) := by
  simp only [dispatch]
  rw [if_neg hn]

theorem dispatch_quit {sr : ScanResult} {now : Int} {t : HashTable}
    (hn : 1 ≤ sr.n)
    (h1 : ¬(ciEq sr.command "write" ∧ 3 ≤ sr.n))
    (h2 : ¬(ciEq sr.command "update" ∧ 3 ≤ sr.n))
    (h3 : ¬(ciEq sr.command "add" ∧ 3 ≤ sr.n))
    (h4 : ¬(ciEq sr.command "search" ∧ sr.n = 2))
    (hq : ciEq sr.command "quit") :
    dispatch sr now t = (.goodbye, t) := by
  simp only [dispatch]
  rw [if_pos hn, if_neg h1, if_neg h2, if_neg h3, if_neg h4, if_pos hq]

theorem dispatch_dump {sr : ScanResult} {now : Int} {t : HashTable}
    (hn : 1 ≤ sr.n)
    (h1 : ¬(ciEq sr.command "write" ∧ 3 ≤ sr.n))
    (h2 : ¬(ciEq sr.command "update" ∧ 3 ≤ sr.n))
    (h3 : ¬(ciEq sr.command "add" ∧ 3 ≤ sr.n))
    (h4 : ¬(ciEq sr.command "search" ∧ sr.n = 2))
    (h5 : ¬ ciEq sr.command "quit")
    (hd : ciEq sr.command "dump") :
    dispatch sr now t =
      (match (dump_store ((if sr.n = 3 then
            (intToSizeT (atoi sr.key), intToSizeT (atoi sr.value))
          else (0, INITIAL_CAPACITY - 1) : Nat × Nat)).1
          ((if sr.n = 3 then (intToSizeT (atoi sr.key), intToSizeT (atoi sr.value))
            else (0, INITIAL_CAPACITY - 1) : Nat × Nat)).2 now t).1 with
       | some rows => Reply.dumpR rows
       | none => Reply.errDumpFailed,
       (dump_store ((if sr.n = 3 then
            (intToSizeT (atoi sr.key), intToSizeT (atoi sr.value))
          else (0, INITIAL_CAPACITY - 1) : Nat × Nat)).1
          ((if sr.n = 3 then (intToSizeT (atoi sr.key), intToSizeT (atoi sr.value))
            else (0, INITIAL_CAPACITY - 1) : Nat × Nat)).2 now t).2) := by
  simp only [dispatch]
  rw [if_pos hn, if_neg h1, if_neg h2, if_neg h3, if_neg h4, if_neg h5, if_pos hd]

theorem dispatch_size {sr : ScanResult} {now : Int} {t : HashTable}
    (hn : 1 ≤ sr.n)
    (h1 : ¬(ciEq sr.command "write" ∧ 3 ≤ sr.n))
    (h2 : ¬(ciEq sr.command "update" ∧ 3 ≤ sr.n))
    (h3 : ¬(ciEq sr.command "add" ∧ 3 ≤ sr.n))
    (h4 : ¬(ciEq sr.command "search" ∧ sr.n = 2))
    (h5 : ¬ ciEq sr.command "quit")
    (h6 : ¬ ciEq sr.command "dump")
    (hs : ciEq sr.command "size") :
    dispatch sr now t =
      (.sizeR (garbage_collect now t).count (garbage_collect now t).capacity,
       garbage_collect now t) := by
  simp only [dispatch]
  rw [if_pos hn, if_neg h1, if_neg h2, if_neg h3, if_neg h4, if_neg h5, if_neg h6,
    if_pos hs]

theorem dispatch_wipe {sr : ScanResult} {now : Int} {t : HashTable}
    (hn : 1 ≤ sr.n)
    (h1 : ¬(ciEq sr.command "write" ∧ 3 ≤ sr.n))
    (h2 : ¬(ciEq sr.command "update" ∧ 3 ≤ sr.n))
    (h3 : ¬(ciEq sr.command "add" ∧ 3 ≤ sr.n))
    (h4 : ¬(ciEq sr.command "search" ∧ sr.n = 2))
    (h5 : ¬ ciEq sr.command "quit")
    (h6 : ¬ ciEq sr.command "dump")
    (h7 : ¬ ciEq sr.command "size")
    (hw : ciEq sr.command "wipe") :
    dispatch sr now t = (.allClean, create_table INITIAL_CAPACITY) := by
  simp only [dispatch]
  rw [if_pos hn, if_neg h1, if_neg h2, if_neg h3, if_neg h4, if_neg h5, if_neg h6,
    if_neg h7, if_pos hw]

theorem dispatch_unknown {sr : ScanResult} {now : Int} {t : HashTable}
    (hn : 1 ≤ sr.n)
    (h1 : ¬(ciEq sr.command "write" ∧ 3 ≤ sr.n))
    (h2 : ¬(ciEq sr.command "update" ∧ 3 ≤ sr.n))
    (h3 : ¬(ciEq sr.command "add" ∧ 3 ≤ sr.n))
    (h4 : ¬(ciEq sr.command "search" ∧ sr.n = 2))
    (h5 : ¬ ciEq sr.command "quit")
    (h6 : ¬ ciEq sr.command "dump")
    (h7 : ¬ ciEq sr.command "size")
    (h8 : ¬ ciEq sr.command "wipe")
    (h9 : ¬(ciEq sr.command "delete" ∧ sr.n = 2)) :
    dispatch sr now t = (.errUnknown, t) := by
  simp only [dispatch]
  rw [if_pos hn, if_neg h1, if_neg h2, if_neg h3, if_neg h4, if_neg h5, if_neg h6,
    if_neg h7, if_neg h8, if_neg h9]

theorem ciEq_lower_ne {cmd s lit : String} (hc : lowerStr cmd = s)
    (hne : s ≠ lowerStr lit) : ¬ ciEq cmd lit :=
  fun h => hne (by rw [← hc]; exact h)

/-! ## Claim theorems -/

/-- Claim C1, counterexample: resizing the startup table does not double the
capacity — it triples it (3069, not 2046). -/
theorem C1_cex :
    (resize_table (create_table 1023)).capacity = 3069 ∧
    (resize_table (create_table 1023)).capacity ≠ 2 * (create_table 1023).capacity := by
  have h1 : (resize_table (create_table 1023)).capacity
      = (create_table 1023).capacity * 3 := rfl
  have h2 : (create_table 1023).capacity = 1023 := rfl
  rw [h1, h2]
  omega

/-- Claim C1, amended: whenever `resize_table` runs, the new capacity is
exactly 3 times the old capacity. -/
theorem C1_growth_factor (t : HashTable) :
    (resize_table t).capacity = t.capacity * 3 := rfl

/-- Claim C2: a key with a live entry before a resize is still found by
lookup afterwards (with the very same entry, hence its last-written value),
the resize does not change the count, and no key gains a duplicate entry. -/
theorem C2_resize_roundtrip (t : HashTable) (k : String) (n : Node) (now : Int)
    (hWF : WF t) (hn : n ∈ allNodes t) (hk : n.key = k)
    (hlive : now - n.created_at < n.ttl) :
    (search k now t).1 = some n ∧
    (search k now (resize_table t)).1 = some n ∧
    (resize_table t).count = t.count ∧
    keyNodup (allNodes (resize_table t)) := by
  obtain ⟨hWFr, -, hcntr, hpermr⟩ := resize_facts hWF
  refine ⟨by rw [search_found hWF hn hk hlive], ?_, hcntr, hWFr.2.2.2.2.1⟩
  rw [search_found hWFr (hpermr.mem_iff.mpr hn) hk hlive]

/-- Witness for C2 at a concrete one-entry table. -/
theorem C2_witness :
    (search "k" 0 { buckets := [[{ key := "k", value := "x", created_at := 0, ttl := 100, hash := hash "k" }]], capacity := 1, count := 1 }).1 = some { key := "k", value := "x", created_at := 0, ttl := 100, hash := hash "k" } ∧
    (search "k" 0 (resize_table { buckets := [[{ key := "k", value := "x", created_at := 0, ttl := 100, hash := hash "k" }]], capacity := 1, count := 1 })).1 = some { key := "k", value := "x", created_at := 0, ttl := 100, hash := hash "k" } ∧
    (resize_table { buckets := [[{ key := "k", value := "x", created_at := 0, ttl := 100, hash := hash "k" }]], capacity := 1, count := 1 }).count = ({ buckets := [[{ key := "k", value := "x", created_at := 0, ttl := 100, hash := hash "k" }]], capacity := 1, count := 1 } : HashTable).count ∧
    keyNodup (allNodes (resize_table { buckets := [[{ key := "k", value := "x", created_at := 0, ttl := 100, hash := hash "k" }]], capacity := 1, count := 1 })) :=
  C2_resize_roundtrip _ "k" _ 0 (by decide) (by decide) rfl (by decide)

/-- Claim C5: after any sequence of `write`/`add`/`update` operations from
the startup table, every key has at most one entry in the whole table. -/
theorem C5_key_uniqueness (ops : List Op) (hops : ∀ op ∈ ops, isWAU op) :
    keyNodup (allNodes (runOps ops)) :=
  (runOps_invariant ops).1.2.2.2.2.1

/-- Witness for C5 on a small concrete operation sequence. -/
theorem C5_witness :
    (∀ op ∈ [Op.write "a" "x" 5 0, Op.add "a" "y" 5 0, Op.update "b" "z" 5 0,
      Op.write "b" "w" 5 0], isWAU op) ∧
    keyNodup (allNodes (runOps [Op.write "a" "x" 5 0, Op.add "a" "y" 5 0,
      Op.update "b" "z" 5 0, Op.write "b" "w" 5 0])) :=
  ⟨by decide, C5_key_uniqueness _ (by decide)⟩

/-- Claim C6, counterexample: 768 writes of distinct keys from the startup
table yield count 768 at capacity 1023 — a load factor of 768/1023 > 0.75,
reachable because the pre-insert check only fires on a load factor already
strictly above the threshold. -/
theorem C6_cex :
    (runOps cexOps).count = 768 ∧ (runOps cexOps).capacity = 1023 ∧
    ¬ (4 * (runOps cexOps).count ≤ 3 * (runOps cexOps).capacity) := by
  obtain ⟨hc, hcap⟩ := cexOps_run
  rw [hc, hcap]
  omega

/-- Claim C6, amended: in every state reachable by store operations from the
startup table, `count ≤ 0.75·capacity + 1` (the load factor exceeds the 0.75
threshold by at most `1/capacity`; the check runs before every upsert —
including pure replacements — but only compares the pre-insert load factor). -/
theorem C6_load_factor_bound (ops : List Op) :
    4 * (runOps ops).count ≤ 3 * (runOps ops).capacity + 4 :=
  (runOps_invariant ops).2

/-- Claim C3, counterexample: `update` of an absent key does fail with the
not-found code, but it does not leave the store state unchanged — on a table
whose load factor is already above the threshold, the pre-scan check resizes
(capacity 1 becomes 3) even though nothing is written. -/
theorem C3_cex :
    (insert "b" "y" 5 1 0 { buckets := [[{ key := "a", value := "x", created_at := 0, ttl := 100, hash := hash "a" }]], capacity := 1, count := 1 }).1 = -1 ∧
    (insert "b" "y" 5 1 0 { buckets := [[{ key := "a", value := "x", created_at := 0, ttl := 100, hash := hash "a" }]], capacity := 1, count := 1 }).2.capacity = 3 ∧
    ({ buckets := [[{ key := "a", value := "x", created_at := 0, ttl := 100, hash := hash "a" }]], capacity := 1, count := 1 } : HashTable).capacity = 1 := by
  decide

/-- Claim C3, amended: `update` (UPDATE_ONLY) of an absent key fails with the
not-found code and leaves the entries and the count unchanged — but the
capacity may still grow, because the load-factor check precedes the key scan;
the state is exactly unchanged whenever that check does not fire.  It succeeds
(replacing value, ttl and creation time in place) exactly when the key
exists. -/
theorem C3_update_only (t : HashTable) (k v : String) (ttl : Nat) (now : Int)
    (hWF : WF t) :
    (keyAbsent k t →
      (insert k v ttl 1 now t).1 = -1 ∧
      (allNodes (insert k v ttl 1 now t).2).Perm (allNodes t) ∧
      (insert k v ttl 1 now t).2.count = t.count ∧
      (¬ LOAD_FACTOR_NUM * t.capacity < 4 * t.count →
        (insert k v ttl 1 now t).2 = t)) ∧
    (∀ n ∈ allNodes t, n.key = k →
      (insert k v ttl 1 now t).1 = 1 ∧
      { key := k, value := v, created_at := now, ttl := toTimeT ttl, hash := hash k }
        ∈ allNodes (insert k v ttl 1 now t).2 ∧
      (insert k v ttl 1 now t).2.count = t.count) := by
  constructor
  · intro habs
    rw [insert_update_absent hWF habs]
    refine ⟨rfl, (preResize_facts hWF).2.2, (preResize_facts hWF).2.1, ?_⟩
    intro hno
    show (if LOAD_FACTOR_NUM * t.capacity < 4 * t.count then resize_table t else t) = t
    rw [if_neg hno]
  · intro n hn hk
    obtain ⟨h1, -, h3, h4, -⟩ := insert_present_replace hWF hn hk (by decide : (1:Int) ≠ 2)
    exact ⟨h1, h4, h3⟩

/-- Witness for C3 (amended) on a small empty table. -/
theorem C3_witness :
    WF (create_table 3) ∧ keyAbsent "a" (create_table 3) ∧
    (insert "a" "x" 7 1 0 (create_table 3)).1 = -1 ∧
    (insert "a" "x" 7 1 0 (create_table 3)).2 = create_table 3 :=
  ⟨by decide, by decide,
   ((C3_update_only (create_table 3) "a" "x" 7 0 (by decide)).1 (by decide)).1,
   ((C3_update_only (create_table 3) "a" "x" 7 0 (by decide)).1 (by decide)).2.2.2
     (by decide)⟩

/-- Claim C4: an entry written with ttl `t` is found at `created_at + t - 1`,
not found at `created_at + t + 1`; that first post-expiry lookup removes the
entry and decrements the count exactly once, and a repeated lookup changes
nothing further. -/
theorem C4_ttl_expiry (t : HashTable) (k v : String) (ttl : Nat) (c : Int)
    (hWF : WF t) (httl : ttl < 2 ^ 63) :
    (search k (c + ttl - 1) (insert k v ttl 0 c t).2).1 =
      some { key := k, value := v, created_at := c, ttl := toTimeT ttl, hash := hash k } ∧
    (search k (c + ttl + 1) (insert k v ttl 0 c t).2).1 = none ∧
    1 ≤ (insert k v ttl 0 c t).2.count ∧
    (search k (c + ttl + 1) (insert k v ttl 0 c t).2).2.count
      = (insert k v ttl 0 c t).2.count - 1 ∧
    search k (c + ttl + 1) (search k (c + ttl + 1) (insert k v ttl 0 c t).2).2
      = (none, (search k (c + ttl + 1) (insert k v ttl 0 c t).2).2) := by
  have httlEq : toTimeT ttl = (ttl : Int) := by rw [toTimeT, if_pos httl]
  have hmain : WF (insert k v ttl 0 c t).2 ∧
      ({ key := k, value := v, created_at := c, ttl := toTimeT ttl,
         hash := hash k } : Node) ∈ allNodes (insert k v ttl 0 c t).2 ∧
      1 ≤ (insert k v ttl 0 c t).2.count := by
    by_cases hex : ∃ n ∈ allNodes t, n.key = k
    · obtain ⟨n, hn, hk⟩ := hex
      obtain ⟨-, hWF', hcnt', hmem', -⟩ :=
        insert_present_replace hWF hn hk (by decide : (0:Int) ≠ 2)
      refine ⟨hWF', hmem', ?_⟩
      rw [hcnt']
      have h1 : t.count = (allNodes t).length := hWF.2.2.2.2.2
      have h2 : 0 < (allNodes t).length :=
        List.length_pos.mpr (List.ne_nil_of_mem hn)
      omega
    · have habs : keyAbsent k t := fun m hm hkm => hex ⟨m, hm, hkm⟩
      obtain ⟨-, hWF', hcnt', hperm', -⟩ :=
        insert_absent_facts hWF habs (by decide : (0:Int) ≠ 1)
      exact ⟨hWF', hperm'.mem_iff.mpr (List.mem_cons_self _ _), by omega⟩
  obtain ⟨hWF', hmem', hcnt1⟩ := hmain
  have hfound := search_found hWF' hmem' rfl
    (by show c + ttl - 1 - c < toTimeT ttl
        rw [httlEq]; omega)
  obtain ⟨he1, -, he3, -, -, hWF₂, habs₂, -⟩ := search_expired (c + ttl + 1) hWF' hmem' rfl
    (by show toTimeT ttl ≤ c + ttl + 1 - c
        rw [httlEq]; omega)
  exact ⟨by rw [hfound], he1, hcnt1, he3, search_absent hWF₂ habs₂⟩

/-- Witness for C4 on a small empty table. -/
theorem C4_witness :
    WF (create_table 3) ∧ (5 : Nat) < 2 ^ 63 ∧
    ((search "a" ((0 : Int) + (5 : Nat) - 1) (insert "a" "x" 5 0 0 (create_table 3)).2).1 =
      some { key := "a", value := "x", created_at := 0, ttl := toTimeT 5, hash := hash "a" } ∧
    (search "a" ((0 : Int) + (5 : Nat) + 1) (insert "a" "x" 5 0 0 (create_table 3)).2).1 = none ∧
    1 ≤ (insert "a" "x" 5 0 0 (create_table 3)).2.count ∧
    (search "a" ((0 : Int) + (5 : Nat) + 1) (insert "a" "x" 5 0 0 (create_table 3)).2).2.count
      = (insert "a" "x" 5 0 0 (create_table 3)).2.count - 1 ∧
    search "a" ((0 : Int) + (5 : Nat) + 1)
        (search "a" ((0 : Int) + (5 : Nat) + 1) (insert "a" "x" 5 0 0 (create_table 3)).2).2
      = (none, (search "a" ((0 : Int) + (5 : Nat) + 1) (insert "a" "x" 5 0 0 (create_table 3)).2).2)) :=
  ⟨by decide, by decide, C4_ttl_expiry (create_table 3) "a" "x" 5 0 (by decide) (by decide)⟩

/-- Claim C7, counterexample: the range `[0, 1023)` lies within the
1023-bucket startup table (`0 + 1023 ≤ capacity`), yet `dump_store` rejects
it, because the code tests `index + offset ≥ capacity` instead of `>`. -/
theorem C7_cex :
    (dump_store 0 1023 0 (create_table 1023)).1 = none ∧
    0 + 1023 ≤ (create_table 1023).capacity := by
  have e2 : (create_table 1023).capacity = 1023 := rfl
  constructor
  · rw [dump_store_none (Or.inr (by rw [e2]; omega))]
  · rw [e2]

/-- Claim C7, amended: `dump_store` fails exactly when `index ≥ capacity` or
the `size_t` sum `(index + offset) mod 2⁶⁴` is `≥ capacity` — so the
exactly-fitting range `index + offset = capacity` is also rejected, while a
`bucketCount` that wraps the `size_t` sum below the capacity slips past the
guard (e.g. `dump 10 -5`).  When the guard passes, the dump succeeds after
the implicit sweep and lists exactly the post-sweep entries of buckets `i`
with `index ≤ i < (index + offset) mod 2⁶⁴` (an empty listing when the
wrapped sum is at or below `index`). -/
theorem C7_dump_range (index offset : Nat) (now : Int) (t : HashTable) :
    ((t.capacity ≤ index ∨ t.capacity ≤ (index + offset) % 2 ^ 64) →
      (dump_store index offset now t).1 = none) ∧
    (¬ (t.capacity ≤ index ∨ t.capacity ≤ (index + offset) % 2 ^ 64) →
      ∃ rows, (dump_store index offset now t).1 = some rows ∧
        ∀ p : Nat × Node, p ∈ rows ↔
          (index ≤ p.1 ∧ p.1 < (index + offset) % 2 ^ 64 ∧
            p.2 ∈ (garbage_collect now t).buckets.getD p.1 [])) := by
  constructor
  · intro h
    rw [dump_store_none h]
  · intro h1
    refine ⟨_, by rw [dump_store_some h1], ?_⟩
    intro p
    rw [mem_dump_rows]
    constructor
    · rintro ⟨a, b, c⟩
      exact ⟨a, by omega, c⟩
    · rintro ⟨a, b, c⟩
      exact ⟨a, by omega, c⟩

/-- Witness for C7 (amended) on small tables: an out-of-range dump fails, an
in-range dump succeeds, and a wrapping `offset` (the `size_t` image of `-5`)
slips past the guard and succeeds. -/
theorem C7_witness :
    (dump_store 5 0 0 (create_table 4)).1 = none ∧
    (∃ rows, (dump_store 1 2 0 (create_table 4)).1 = some rows ∧
      ∀ p : Nat × Node, p ∈ rows ↔
        (1 ≤ p.1 ∧ p.1 < (1 + 2) % 2 ^ 64 ∧
          p.2 ∈ (garbage_collect 0 (create_table 4)).buckets.getD p.1 [])) ∧
    (∃ rows, (dump_store 10 (2 ^ 64 - 5) 0 (create_table 1023)).1 = some rows ∧
      ∀ p : Nat × Node, p ∈ rows ↔
        (10 ≤ p.1 ∧ p.1 < (10 + (2 ^ 64 - 5)) % 2 ^ 64 ∧
          p.2 ∈ (garbage_collect 0 (create_table 1023)).buckets.getD p.1 [])) :=
  ⟨(C7_dump_range 5 0 0 (create_table 4)).1 (by decide),
   (C7_dump_range 1 2 0 (create_table 4)).2 (by decide),
   (C7_dump_range 10 (2 ^ 64 - 5) 0 (create_table 1023)).2 (by decide)⟩

/-- Claim C8, counterexample: `write k` names a recognized command with the
wrong argument count, yet the interpreter replies with the unknown-command
error line, not the invalid-command one (which is reserved for lines with no
tokens at all). -/
theorem C8_cex :
    interp "write k" 0 (create_table 7) = (Reply.errUnknown, create_table 7) ∧
    Reply.errUnknown ≠ Reply.errInvalid := by
  decide

/-- Claim C8, amended: a line with no tokens gets the invalid-command error
and no store change.  Only `write`/`update`/`add` (at least 3 tokens) and
`search`/`delete` (exactly 2 tokens) are arity-guarded: with the wrong
argument count they do not get the invalid-command error — they fall through
to the unknown-command error, also with no store change.  The recognized
commands without an arity guard execute regardless of argument count: `quit`
replies and closes, `size` sweeps and reports, `wipe` clears the store, and
`dump` with an argument count other than 3 runs on the default range. -/
theorem C8_parse_errors (buffer : String) (now : Int) (t : HashTable) :
    ∀ sr : ScanResult, sr = scanLine (trim_newline buffer) →
      (sr.n = 0 → interp buffer now t = (.errInvalid, t)) ∧
      (1 ≤ sr.n →
        ((((lowerStr sr.command = "write" ∨ lowerStr sr.command = "update" ∨
            lowerStr sr.command = "add") ∧ sr.n < 3) ∨
          ((lowerStr sr.command = "search" ∨ lowerStr sr.command = "delete") ∧
            sr.n ≠ 2)) →
          interp buffer now t = (.errUnknown, t)) ∧
        (lowerStr sr.command = "quit" → interp buffer now t = (.goodbye, t)) ∧
        (lowerStr sr.command = "size" →
          interp buffer now t =
            (.sizeR (garbage_collect now t).count (garbage_collect now t).capacity,
             garbage_collect now t)) ∧
        (lowerStr sr.command = "wipe" →
          interp buffer now t = (.allClean, create_table INITIAL_CAPACITY)) ∧
        (lowerStr sr.command = "dump" → sr.n ≠ 3 →
          interp buffer now t =
            (match (dump_store 0 (INITIAL_CAPACITY - 1) now t).1 with
             | some rows => Reply.dumpR rows
             | none => Reply.errDumpFailed,
             (dump_store 0 (INITIAL_CAPACITY - 1) now t).2))) := by
  intro sr hsr
  have hinterp : interp buffer now t = dispatch sr now t := by rw [interp, hsr]
  refine ⟨?_, ?_⟩
  · intro h0
    rw [hinterp, dispatch_invalid (by omega)]
  · intro hn
    refine ⟨?_, ?_, ?_, ?_, ?_⟩
    · intro hcase
      rw [hinterp]
      rcases hcase with ⟨hcmd3, hlt3⟩ | ⟨hcmd2, hne2⟩
      · rcases hcmd3 with hc | hc | hc
        · exact dispatch_unknown hn
            (fun hv => absurd hv.2 (by omega))
            (fun hv => ciEq_lower_ne hc (by decide) hv.1)
            (fun hv => ciEq_lower_ne hc (by decide) hv.1)
            (fun hv => ciEq_lower_ne hc (by decide) hv.1)
            (ciEq_lower_ne hc (by decide)) (ciEq_lower_ne hc (by decide))
            (ciEq_lower_ne hc (by decide)) (ciEq_lower_ne hc (by decide))
            (fun hv => ciEq_lower_ne hc (by decide) hv.1)
        · exact dispatch_unknown hn
            (fun hv => ciEq_lower_ne hc (by decide) hv.1)
            (fun hv => absurd hv.2 (by omega))
            (fun hv => ciEq_lower_ne hc (by decide) hv.1)
            (fun hv => ciEq_lower_ne hc (by decide) hv.1)
            (ciEq_lower_ne hc (by decide)) (ciEq_lower_ne hc (by decide))
            (ciEq_lower_ne hc (by decide)) (ciEq_lower_ne hc (by decide))
            (fun hv => ciEq_lower_ne hc (by decide) hv.1)
        · exact dispatch_unknown hn
            (fun hv => ciEq_lower_ne hc (by decide) hv.1)
            (fun hv => ciEq_lower_ne hc (by decide) hv.1)
            (fun hv => absurd hv.2 (by omega))
            (fun hv => ciEq_lower_ne hc (by decide) hv.1)
            (ciEq_lower_ne hc (by decide)) (ciEq_lower_ne hc (by decide))
            (ciEq_lower_ne hc (by decide)) (ciEq_lower_ne hc (by decide))
            (fun hv => ciEq_lower_ne hc (by decide) hv.1)
      · rcases hcmd2 with hc | hc
        · exact dispatch_unknown hn
            (fun hv => ciEq_lower_ne hc (by decide) hv.1)
            (fun hv => ciEq_lower_ne hc (by decide) hv.1)
            (fun hv => ciEq_lower_ne hc (by decide) hv.1)
            (fun hv => absurd hv.2 hne2)
            (ciEq_lower_ne hc (by decide)) (ciEq_lower_ne hc (by decide))
            (ciEq_lower_ne hc (by decide)) (ciEq_lower_ne hc (by decide))
            (fun hv => ciEq_lower_ne hc (by decide) hv.1)
        · exact dispatch_unknown hn
            (fun hv => ciEq_lower_ne hc (by decide) hv.1)
            (fun hv => ciEq_lower_ne hc (by decide) hv.1)
            (fun hv => ciEq_lower_ne hc (by decide) hv.1)
            (fun hv => ciEq_lower_ne hc (by decide) hv.1)
            (ciEq_lower_ne hc (by decide)) (ciEq_lower_ne hc (by decide))
            (ciEq_lower_ne hc (by decide)) (ciEq_lower_ne hc (by decide))
            (fun hv => absurd hv.2 hne2)
    · intro hc
      rw [hinterp]
      exact dispatch_quit hn
        (fun hv => ciEq_lower_ne hc (by decide) hv.1)
        (fun hv => ciEq_lower_ne hc (by decide) hv.1)
        (fun hv => ciEq_lower_ne hc (by decide) hv.1)
        (fun hv => ciEq_lower_ne hc (by decide) hv.1)
        (show lowerStr sr.command = lowerStr "quit" by rw [hc]; decide)
    · intro hc
      rw [hinterp]
      exact dispatch_size hn
        (fun hv => ciEq_lower_ne hc (by decide) hv.1)
        (fun hv => ciEq_lower_ne hc (by decide) hv.1)
        (fun hv => ciEq_lower_ne hc (by decide) hv.1)
        (fun hv => ciEq_lower_ne hc (by decide) hv.1)
        (ciEq_lower_ne hc (by decide)) (ciEq_lower_ne hc (by decide))
        (show lowerStr sr.command = lowerStr "size" by rw [hc]; decide)
    · intro hc
      rw [hinterp]
      exact dispatch_wipe hn
        (fun hv => ciEq_lower_ne hc (by decide) hv.1)
        (fun hv => ciEq_lower_ne hc (by decide) hv.1)
        (fun hv => ciEq_lower_ne hc (by decide) hv.1)
        (fun hv => ciEq_lower_ne hc (by decide) hv.1)
        (ciEq_lower_ne hc (by decide)) (ciEq_lower_ne hc (by decide))
        (ciEq_lower_ne hc (by decide))
        (show lowerStr sr.command = lowerStr "wipe" by rw [hc]; decide)
    · intro hc hn3
      rw [hinterp, dispatch_dump hn
        (fun hv => ciEq_lower_ne hc (by decide) hv.1)
        (fun hv => ciEq_lower_ne hc (by decide) hv.1)
        (fun hv => ciEq_lower_ne hc (by decide) hv.1)
        (fun hv => ciEq_lower_ne hc (by decide) hv.1)
        (ciEq_lower_ne hc (by decide))
        (show lowerStr sr.command = lowerStr "dump" by rw [hc]; decide)]
      rw [if_neg hn3]

/-- Witness for C8 (amended): the empty line gets the invalid reply; a
`write` with one argument gets the unknown-command reply; `size foo` still
sweeps and reports; `wipe x` still clears the store. -/
theorem C8_witness :
    interp "" 0 (create_table 5) = (.errInvalid, create_table 5) ∧
    interp "write k" 0 (create_table 5) = (.errUnknown, create_table 5) ∧
    interp "size foo" 0 (create_table 5) =
      (.sizeR (garbage_collect 0 (create_table 5)).count
        (garbage_collect 0 (create_table 5)).capacity,
       garbage_collect 0 (create_table 5)) ∧
    interp "wipe x" 0 (create_table 5) = (.allClean, create_table INITIAL_CAPACITY) :=
  ⟨(C8_parse_errors "" 0 (create_table 5) (scanLine (trim_newline "")) rfl).1
      (by decide),
   ((C8_parse_errors "write k" 0 (create_table 5) (scanLine (trim_newline "write k"))
      rfl).2 (by decide)).1 (by decide),
   ((C8_parse_errors "size foo" 0 (create_table 5) (scanLine (trim_newline "size foo"))
      rfl).2 (by decide)).2.2.1 (by decide),
   ((C8_parse_errors "wipe x" 0 (create_table 5) (scanLine (trim_newline "wipe x"))
      rfl).2 (by decide)).2.2.2.1 (by decide)⟩

/-- Claim C9: `add` (ADD_ONLY) of a present key fails with the key-exists
code and leaves that key's entry (in particular its value) untouched; it
succeeds and inserts exactly when the key is absent. -/
theorem C9_add_only (t : HashTable) (k v : String) (ttl : Nat) (now : Int)
    (hWF : WF t) :
    (∀ n ∈ allNodes t, n.key = k →
      (insert k v ttl 2 now t).1 = -1 ∧ n ∈ allNodes (insert k v ttl 2 now t).2) ∧
    (keyAbsent k t →
      (insert k v ttl 2 now t).1 = 1 ∧
      { key := k, value := v, created_at := now, ttl := toTimeT ttl, hash := hash k }
        ∈ allNodes (insert k v ttl 2 now t).2) := by
  constructor
  · intro n hn hk
    rw [insert_present_add hWF hn hk]
    exact ⟨rfl, (preResize_facts hWF).2.2.mem_iff.mpr hn⟩
  · intro habs
    obtain ⟨h1, -, -, hperm, -⟩ := insert_absent_facts hWF habs (by decide : (2:Int) ≠ 1)
    exact ⟨h1, hperm.mem_iff.mpr (List.mem_cons_self _ _)⟩

/-- Witness for C9 on a concrete one-entry table. -/
theorem C9_witness :
    (insert "a" "y" 5 2 0 { buckets := [[{ key := "a", value := "x", created_at := 0, ttl := 100, hash := hash "a" }]], capacity := 1, count := 1 }).1 = -1 ∧
    ({ key := "a", value := "x", created_at := 0, ttl := 100, hash := hash "a" } : Node)
      ∈ allNodes (insert "a" "y" 5 2 0 { buckets := [[{ key := "a", value := "x", created_at := 0, ttl := 100, hash := hash "a" }]], capacity := 1, count := 1 }).2 := by
  have h := (C9_add_only { buckets := [[{ key := "a", value := "x", created_at := 0, ttl := 100, hash := hash "a" }]], capacity := 1, count := 1 } "a" "y" 5 0 (by decide)).1
    { key := "a", value := "x", created_at := 0, ttl := 100, hash := hash "a" }
    (by decide) rfl
  exact h

/-- Claim C10, counterexample: at the boundary instant (elapsed time exactly
equal to the ttl) `search` treats the entry as expired and removes it, while
`garbage_collect` keeps the table unchanged — the two expiry predicates
disagree there. -/
theorem C10_cex :
    (search "k" 5 { buckets := [[{ key := "k", value := "x", created_at := 0, ttl := 5, hash := hash "k" }]], capacity := 1, count := 1 }).1 = none ∧
    garbage_collect 5 { buckets := [[{ key := "k", value := "x", created_at := 0, ttl := 5, hash := hash "k" }]], capacity := 1, count := 1 }
      = { buckets := [[{ key := "k", value := "x", created_at := 0, ttl := 5, hash := hash "k" }]], capacity := 1, count := 1 } := by
  decide

/-- Claim C10, amended: lookup treats an entry as expired iff
`elapsed ≥ ttl`, while the sweep removes it iff `elapsed > ttl`; the two
agree at every instant except the boundary `elapsed = ttl`, where lookup
expires the entry but the sweep retains it. -/
theorem C10_expiry_boundary (t : HashTable) (k : String) (n : Node) (now : Int)
    (hWF : WF t) (hn : n ∈ allNodes t) (hk : n.key = k) :
    (now - n.created_at < n.ttl → (search k now t).1 = some n) ∧
    (n.ttl ≤ now - n.created_at →
      (search k now t).1 = none ∧ keyAbsent k (search k now t).2) ∧
    (n ∈ allNodes (garbage_collect now t) ↔ now - n.created_at ≤ n.ttl) := by
  refine ⟨?_, ?_, ?_⟩
  · intro hlive
    rw [search_found hWF hn hk hlive]
  · intro hexp
    obtain ⟨h1, -, -, -, -, -, h7, -⟩ := search_expired now hWF hn hk hexp
    exact ⟨h1, h7⟩
  · obtain ⟨-, -, hall, -⟩ := gc_facts hWF now
    rw [hall, List.mem_filter]
    constructor
    · rintro ⟨-, hp⟩
      simp only [decide_eq_true_eq] at hp
      omega
    · intro hle
      refine ⟨hn, ?_⟩
      simp only [decide_eq_true_eq]
      omega

/-- Witness for C10 (amended) on a concrete one-entry table, at the instants
just before expiry, just after, and at the boundary. -/
theorem C10_witness :
    ((search "k" 4 { buckets := [[{ key := "k", value := "x", created_at := 0, ttl := 5, hash := hash "k" }]], capacity := 1, count := 1 }).1 =
      some { key := "k", value := "x", created_at := 0, ttl := 5, hash := hash "k" }) ∧
    ((search "k" 6 { buckets := [[{ key := "k", value := "x", created_at := 0, ttl := 5, hash := hash "k" }]], capacity := 1, count := 1 }).1 = none) ∧
    ({ key := "k", value := "x", created_at := 0, ttl := 5, hash := hash "k" } : Node) ∈
      allNodes (garbage_collect 5 { buckets := [[{ key := "k", value := "x", created_at := 0, ttl := 5, hash := hash "k" }]], capacity := 1, count := 1 }) :=
  ⟨(C10_expiry_boundary
      { buckets := [[{ key := "k", value := "x", created_at := 0, ttl := 5, hash := hash "k" }]], capacity := 1, count := 1 } "k"
      { key := "k", value := "x", created_at := 0, ttl := 5, hash := hash "k" } 4
      (by decide) (by decide) rfl).1 (by decide),
   ((C10_expiry_boundary
      { buckets := [[{ key := "k", value := "x", created_at := 0, ttl := 5, hash := hash "k" }]], capacity := 1, count := 1 } "k"
      { key := "k", value := "x", created_at := 0, ttl := 5, hash := hash "k" } 6
      (by decide) (by decide) rfl).2.1 (by decide)).1,
   (C10_expiry_boundary
      { buckets := [[{ key := "k", value := "x", created_at := 0, ttl := 5, hash := hash "k" }]], capacity := 1, count := 1 } "k"
      { key := "k", value := "x", created_at := 0, ttl := 5, hash := hash "k" } 5
      (by decide) (by decide) rfl).2.2.mpr (by decide)⟩

end KV
